import Mathlib

/-!
Verification of the Delta Exchange option-chain data pipeline
(`src/utils/dataUtils.js` and the embedded API client of the same module).

The JavaScript code is shallowly embedded:
* JS numbers are modelled by `JsNum` — an exact rational together with the two
  infinities; `NaN` is modelled as `Option.none` at the places where it can
  arise (`parseFloat`, `Date.getTime`, comparator subtraction).  Binary
  floating-point rounding/overflow is not modelled: rationals are exact.
* Raw JSON field values feeding `parseFloat` are modelled as their string
  form (`parseFloat` coerces its argument to a string first; an absent field
  — JS `undefined` — is `Option.none` and parses to `NaN`).
* `Array.prototype.sort(cmp)` is modelled by the stable `List.mergeSort`
  with the ECMAScript rule that a `NaN` comparator result counts as `0`
  (elements compare as equal and keep their relative order).
* Fallible operations return `Option`/`Except`; JS exceptions become
  `Except.error` values.
-/

-- ─── Executable rational arithmetic ──────────────────────────────────────────

/-!
Mathlib leaves `Rat.mul`/`Rat.add`/`Rat.sub` irreducible, so the embedding
uses its own kernel-reducible arithmetic built on `mkRat`; the lemmas
`ratMul_eq`, `ratAdd_eq`, `ratSub_eq` and `pow10_eq` below identify it
with the ordinary field operations.
-/

/-- Executable multiplication on `Rat`. -/
def ratMul (a b : Rat) : Rat := mkRat (a.num * b.num) (a.den * b.den)

/-- Executable addition on `Rat`. -/
def ratAdd (a b : Rat) : Rat := mkRat (a.num * b.den + b.num * a.den) (a.den * b.den)

/-- Executable subtraction on `Rat`. -/
def ratSub (a b : Rat) : Rat := ratAdd a (mkRat (-b.num) b.den)

/-- Executable `(10 : Rat) ^ (k : Int)`. -/
def pow10 (k : Int) : Rat :=
  match k with
  | .ofNat n => mkRat (10 ^ n) 1
  | .negSucc n => mkRat 1 (10 ^ (n + 1))

-- ─── JS numbers ───────────────────────────────────────────────────────────────

/-- A non-`NaN` JavaScript number: an exact rational or one of the two
infinities.  `NaN` is represented by `Option.none` wherever it can occur. -/
inductive JsNum where
  | fin (q : Rat)
  | posInf
  | negInf
deriving DecidableEq, Repr

/-- JS `<=` on non-`NaN` numbers. -/
def JsNum.le : JsNum → JsNum → Bool
  | .negInf, _ => true
  | _, .posInf => true
  | .fin a, .fin b => a ≤ b
  | _, _ => false

/-- JS `<` on non-`NaN` numbers. -/
def JsNum.lt : JsNum → JsNum → Bool
  | .fin a, .fin b => a < b
  | .posInf, _ => false
  | _, .negInf => false
  | _, _ => true

/-- JS subtraction; `∞ - ∞` (same sign) is `NaN`, hence `none`. -/
def JsNum.sub : JsNum → JsNum → Option JsNum
  | .fin a, .fin b => some (.fin (ratSub a b))
  | .posInf, .posInf => none
  | .negInf, .negInf => none
  | .posInf, _ => some .posInf
  | .negInf, _ => some .negInf
  | .fin _, .posInf => some .negInf
  | .fin _, .negInf => some .posInf

/-- JS unary minus on non-`NaN` numbers. -/
def JsNum.neg : JsNum → JsNum
  | .fin q => .fin (-q)
  | .posInf => .negInf
  | .negInf => .posInf

-- ─── parseFloat model ─────────────────────────────────────────────────────────

/-- ECMAScript `StrWhiteSpaceChar` (the common ASCII part). -/
def isWsChar (c : Char) : Bool :=
  c = ' ' ∨ c = '\t' ∨ c = '\n' ∨ c = '\r' ∨ c = '\x0b' ∨ c = '\x0c'

/-- Value of a digit string, most significant first. -/
def natOfDigits (cs : List Char) : Nat :=
  cs.foldl (fun a c => 10 * a + (c.toNat - '0'.toNat)) 0

/-- Fractional value of the digit string after a decimal point. -/
def fracOfDigits (cs : List Char) : Rat :=
  mkRat (natOfDigits cs) (10 ^ cs.length)

/-- Multiplier contributed by an optional exponent part (`e`/`E`, optional
sign, digits).  If no well-formed exponent follows, the multiplier is `1`
(`parseFloat` takes the longest valid literal prefix). -/
def exponentFactor (cs : List Char) : Rat :=
  match cs with
  | e :: rest =>
    if e = 'e' ∨ e = 'E' then
      match rest with
      | '-' :: ds =>
        let dd := ds.takeWhile Char.isDigit
        if dd = [] then 1 else pow10 (-(natOfDigits dd : Int))
      | '+' :: ds =>
        let dd := ds.takeWhile Char.isDigit
        if dd = [] then 1 else pow10 (natOfDigits dd : Int)
      | ds =>
        let dd := ds.takeWhile Char.isDigit
        if dd = [] then 1 else pow10 (natOfDigits dd : Int)
    else 1
  | [] => 1

/-- Longest-prefix parse of an unsigned `StrDecimalLiteral`:
`Infinity`, `digits [. digits] [exponent]`, or `. digits [exponent]`.
`none` models `NaN`. -/
def parseUnsigned (cs : List Char) : Option JsNum :=
  match cs with
  | 'I' :: 'n' :: 'f' :: 'i' :: 'n' :: 'i' :: 't' :: 'y' :: _ => some .posInf
  | _ =>
    let intDs := cs.takeWhile Char.isDigit
    let rest := cs.dropWhile Char.isDigit
    match intDs with
    | [] =>
      match rest with
      | '.' :: r2 =>
        let frDs := r2.takeWhile Char.isDigit
        if frDs = [] then none
        else some (.fin (ratMul (fracOfDigits frDs) (exponentFactor (r2.dropWhile Char.isDigit))))
      | _ => none
    | _ :: _ =>
      match rest with
      | '.' :: r2 =>
        let frDs := r2.takeWhile Char.isDigit
        some (.fin (ratMul (ratAdd (natOfDigits intDs : Rat) (fracOfDigits frDs))
          (exponentFactor (r2.dropWhile Char.isDigit))))
      | _ => some (.fin (ratMul (natOfDigits intDs : Rat) (exponentFactor rest)))

/-- Model of JS `parseFloat` on the characters of the (string-coerced)
argument: skip leading whitespace, optional sign, longest valid literal
prefix; `none` models `NaN`. -/
def jsParseFloat (cs : List Char) : Option JsNum :=
  let t := cs.dropWhile isWsChar
  match t with
  | '-' :: rest => (parseUnsigned rest).map JsNum.neg
  | '+' :: rest => parseUnsigned rest
  | _ => parseUnsigned t

-- ─── String.split model ───────────────────────────────────────────────────────

/-- Model of JS `String.prototype.split` with a single-character separator.
`"".split(sep)` is `[""]`; separators at the ends produce empty parts —
exactly as in JS. -/
def splitChar (sep : Char) : List Char → List (List Char)
  | [] => [[]]
  | c :: rest =>
    if c = sep then [] :: splitChar sep rest
    else
      match splitChar sep rest with
      | [] => [[c]]
      | p :: ps => (c :: p) :: ps

-- ─── Date model ───────────────────────────────────────────────────────────────

/-- Gregorian leap-year rule. -/
def isLeapYear (y : Nat) : Bool :=
  y % 4 == 0 && (y % 100 != 0 || y % 400 == 0)

/-- Length of month `m` (1-based); `0` for out-of-range `m`. -/
def monthLength (leap : Bool) (m : Nat) : Nat :=
  match m with
  | 1 => 31 | 2 => if leap then 29 else 28 | 3 => 31 | 4 => 30
  | 5 => 31 | 6 => 30 | 7 => 31 | 8 => 31
  | 9 => 30 | 10 => 31 | 11 => 30 | 12 => 31
  | _ => 0

/-- Days in the months strictly before month `m` of the same year. -/
def daysBeforeMonth (leap : Bool) (m : Nat) : Nat :=
  (List.range (m - 1)).foldl (fun a i => a + monthLength leap (i + 1)) 0

/-- Leap days in years `1 .. y-1` (proleptic Gregorian, counted from year 1). -/
def leapsBefore (y : Nat) : Nat :=
  (y - 1) / 4 - (y - 1) / 100 + (y - 1) / 400

/-- Days from 1970-01-01 to `y-m-d` (requires `y ≥ 1970`). -/
def epochDays (y m d : Nat) : Nat :=
  ((365 * y + leapsBefore y) - (365 * 1970 + leapsBefore 1970))
    + daysBeforeMonth (isLeapYear y) m + (d - 1)

/-- Model of `new Date("YYYY-MM-DDT08:00:00Z").getTime()` for a
four-digit year, two-digit month and two-digit day (the only shapes the
symbol codec ever builds; its year is always `"20" ++ two chars`).
An ill-formed or out-of-range date yields `NaN`, i.e. `none`. -/
def dateStringToMs (ys ms ds : List Char) : Option Int :=
  if (ys.length = 4 ∧ ms.length = 2 ∧ ds.length = 2)
      ∧ (ys ++ ms ++ ds).all Char.isDigit then
    let y := natOfDigits ys
    let m := natOfDigits ms
    let d := natOfDigits ds
    if 1970 ≤ y ∧ (1 ≤ m ∧ m ≤ 12) ∧ (1 ≤ d ∧ d ≤ monthLength (isLeapYear y) m) then
      some ((epochDays y m d : Int) * 86400000 + 8 * 3600000)
    else none
  else none

-- ─── Symbol codec (parseOptionSymbol) ─────────────────────────────────────────

inductive OptionType where
  | call
  | put
deriving DecidableEq, Repr

structure OptionSymbol where
  optionType : OptionType
  asset : String
  strike : JsNum
  expiryDate : String
  expiryMs : Option Int
  expiryRaw : String
deriving DecidableEq, Repr

/-- Destructuring step of `parseOptionSymbol`: the
`const [typeChar, asset, strikeStr, expiryStr] = parts` binding together
with the `parts.length < 4` guard, followed by the validation chain. -/
def parseParts : List (List Char) → Option OptionSymbol
  | typeChar :: asset :: strikeStr :: expiryStr :: _ =>
    if typeChar ≠ ['C'] ∧ typeChar ≠ ['P'] then none
    else
      let optionType := if typeChar = ['C'] then OptionType.call else OptionType.put
      match jsParseFloat strikeStr with
      | none => none
      | some strike =>
        if expiryStr.length < 6 then none
        else
          let day := expiryStr.take 2
          let month := (expiryStr.drop 2).take 2
          let year := '2' :: '0' :: (expiryStr.drop 4).take 2
          let expiryDate := String.mk (year ++ '-' :: month ++ '-' :: day)
          some ⟨optionType, String.mk asset, strike, expiryDate,
                dateStringToMs year month day, String.mk expiryStr⟩
  | _ => none

/-- Embedding of `parseOptionSymbol` (dataUtils.js lines 47-69): split the
symbol on `-`; require at least 4 parts, a `C`/`P` type char, a
non-`NaN` strike and an expiry part of at least 6 characters; decode
`DDMMYY` with the year prefixed by `20` and timestamp the date at
`08:00:00Z`. -/
def parseOptionSymbol (symbol : String) : Option OptionSymbol :=
  if symbol = "" then none
  else parseParts (splitChar '-' symbol.data)

/-- JS call sites may pass `undefined` (an absent `ticker.symbol`); it is
falsy, so `parseOptionSymbol` returns `null`. -/
def parseOptionSymbolJs : Option String → Option OptionSymbol
  | none => none
  | some s => parseOptionSymbol s

-- ─── Ticker normalizer ────────────────────────────────────────────────────────

/-- Raw `quotes` sub-object of a Delta ticker.  Field values are the
string form of whatever JSON value is present (`parseFloat` coerces its
argument to a string); `none` is an absent field (JS `undefined`). -/
structure RawQuotes where
  best_bid : Option String
  best_ask : Option String
  bid_iv : Option String
  ask_iv : Option String
  bid_size : Option String
  ask_size : Option String
deriving DecidableEq, Repr

/-- Raw `greeks` sub-object of a Delta ticker. -/
structure RawGreeks where
  delta : Option String
  gamma : Option String
  rho : Option String
  theta : Option String
  vega : Option String
deriving DecidableEq, Repr

/-- Raw ticker payload, as consumed by `normalizeTicker`. -/
structure RawTicker where
  symbol : Option String
  product_id : Option String
  mark_price : Option String
  spot_price : Option String
  oi : Option String
  volume : Option String
  turnover_usd : Option String
  quotes : Option RawQuotes
  greeks : Option RawGreeks
deriving DecidableEq, Repr

/-- The `{}` default used by `ticker.quotes ?? {}`. -/
def emptyQuotes : RawQuotes := ⟨none, none, none, none, none, none⟩

/-- The `{}` default used by `ticker.greeks ?? {}`. -/
def emptyGreeks : RawGreeks := ⟨none, none, none, none, none⟩

/-- Embedding of the per-field expression `parseFloat(v) || null`:
an absent field parses to `NaN`; `NaN` and `0` are falsy, so both
collapse to `null` (`none`); every other number passes through. -/
def lenientNum (v : Option String) : Option JsNum :=
  match v with
  | none => none
  | some s =>
    match jsParseFloat s.data with
    | none => none
    | some n => if n = JsNum.fin 0 then none else some n

/-- The flat record produced by `normalizeTicker`.  `none` in a numeric
field is the record's explicit "no value" marker (JS `null`). -/
structure NormalizedRecord where
  symbol : Option String
  product_id : Option String
  asset : String
  option_type : OptionType
  strike : JsNum
  expiry_date : String
  expiry_ms : Option Int
  expiry_raw : String
  mark_price : Option JsNum
  spot_price : Option JsNum
  bid_price : Option JsNum
  ask_price : Option JsNum
  bid_iv : Option JsNum
  ask_iv : Option JsNum
  bid_size : Option JsNum
  ask_size : Option JsNum
  open_interest : Option JsNum
  volume : Option JsNum
  turnover_usd : Option JsNum
  delta : Option JsNum
  gamma : Option JsNum
  rho : Option JsNum
  theta : Option JsNum
  vega : Option JsNum
deriving DecidableEq, Repr

/-- Embedding of `normalizeTicker` (dataUtils.js lines 93-133). -/
def normalizeTicker (ticker : RawTicker) : Option NormalizedRecord :=
  match parseOptionSymbolJs ticker.symbol with
  | none => none
  | some sym =>
    let quotes := ticker.quotes.getD emptyQuotes
    let greeks := ticker.greeks.getD emptyGreeks
    some
      { symbol := ticker.symbol
        product_id := ticker.product_id
        asset := sym.asset
        option_type := sym.optionType
        strike := sym.strike
        expiry_date := sym.expiryDate
        expiry_ms := sym.expiryMs
        expiry_raw := sym.expiryRaw
        mark_price := lenientNum ticker.mark_price
        spot_price := lenientNum ticker.spot_price
        bid_price := lenientNum quotes.best_bid
        ask_price := lenientNum quotes.best_ask
        bid_iv := lenientNum quotes.bid_iv
        ask_iv := lenientNum quotes.ask_iv
        bid_size := lenientNum quotes.bid_size
        ask_size := lenientNum quotes.ask_size
        open_interest := lenientNum ticker.oi
        volume := lenientNum ticker.volume
        turnover_usd := lenientNum ticker.turnover_usd
        delta := lenientNum greeks.delta
        gamma := lenientNum greeks.gamma
        rho := lenientNum greeks.rho
        theta := lenientNum greeks.theta
        vega := lenientNum greeks.vega }

/-- Embedding of `normalizeOptionChain` (dataUtils.js lines 139-148):
normalize each ticker, skip unparseable symbols, skip records whose
`open_interest ?? 0` is `<` the threshold, keep input order.
`minOpenInterest` is a finite configuration number. -/
def normalizeOptionChain (tickers : List RawTicker) (minOpenInterest : Rat) :
    List NormalizedRecord :=
  match tickers with
  | [] => []
  | t :: rest =>
    match normalizeTicker t with
    | none => normalizeOptionChain rest minOpenInterest
    | some r =>
      if JsNum.lt (r.open_interest.getD (JsNum.fin 0)) (JsNum.fin minOpenInterest) then
        normalizeOptionChain rest minOpenInterest
      else r :: normalizeOptionChain rest minOpenInterest

-- ─── Concrete inputs used by witnesses and counterexamples ───────────────────

/-- Raw call ticker of the spec's end-to-end scenario (open interest 10). -/
def tkCall : RawTicker :=
  { symbol := some "C-BTC-95200-200225", product_id := none, mark_price := none,
    spot_price := none, oi := some "10", volume := none, turnover_usd := none,
    quotes := none, greeks := none }

/-- Raw put ticker of the spec's end-to-end scenario (open interest 0,
which the normalizer collapses to the "no value" marker). -/
def tkPut : RawTicker :=
  { symbol := some "P-BTC-95200-200225", product_id := none, mark_price := none,
    spot_price := none, oi := some "0", volume := none, turnover_usd := none,
    quotes := none, greeks := none }

/-- Normalized form of `tkCall`. -/
def recCall : NormalizedRecord :=
  { symbol := some "C-BTC-95200-200225", product_id := none, asset := "BTC",
    option_type := .call, strike := .fin 95200, expiry_date := "2025-02-20",
    expiry_ms := some 1740038400000, expiry_raw := "200225",
    mark_price := none, spot_price := none, bid_price := none, ask_price := none,
    bid_iv := none, ask_iv := none, bid_size := none, ask_size := none,
    open_interest := some (.fin 10), volume := none, turnover_usd := none,
    delta := none, gamma := none, rho := none, theta := none, vega := none }

/-- Normalized form of `tkPut`. -/
def recPut : NormalizedRecord :=
  { symbol := some "P-BTC-95200-200225", product_id := none, asset := "BTC",
    option_type := .put, strike := .fin 95200, expiry_date := "2025-02-20",
    expiry_ms := some 1740038400000, expiry_raw := "200225",
    mark_price := none, spot_price := none, bid_price := none, ask_price := none,
    bid_iv := none, ask_iv := none, bid_size := none, ask_size := none,
    open_interest := none, volume := none, turnover_usd := none,
    delta := none, gamma := none, rho := none, theta := none, vega := none }

/-- Relation between a source field and its normalized output under the
leniency rule actually implemented: absent, non-numeric and **zero**
sources all collapse to the "no value" marker; any other parsed number
passes through unchanged. -/
def LenientField (src : Option String) (out : Option JsNum) : Prop :=
  (src = none → out = none) ∧
  (∀ s, src = some s → jsParseFloat s.data = none → out = none) ∧
  (∀ s, src = some s → jsParseFloat s.data = some (JsNum.fin 0) → out = none) ∧
  (∀ s n, src = some s → jsParseFloat s.data = some n → n ≠ JsNum.fin 0 →
    out = some n)

-- ─── Chain aggregator ────────────────────────────────────────────────────────

/-- One step of the `groupByExpiry` Map construction (dataUtils.js lines
156-163): if the record's `expiry_ms` key is already present, push the
record onto that entry's list; otherwise append a fresh entry.  A JS
`Map` keeps insertion order, and `NaN` keys (here `none`) coincide under
`SameValueZero`, exactly like `Option.none` under `=`. -/
def insertRow (m : List (Option Int × List NormalizedRecord)) (row : NormalizedRecord) :
    List (Option Int × List NormalizedRecord) :=
  if m.any (fun p => p.1 = row.expiry_ms) then
    m.map (fun p => if p.1 = row.expiry_ms then (p.1, p.2 ++ [row]) else p)
  else m ++ [(row.expiry_ms, [row])]

/-- ES2023 `SortCompare` for the entry comparator `(a, b) => a[0] - b[0]`:
the subtraction of a `NaN` key is `NaN`, which the sort treats as `0`,
so the entry may keep its place; otherwise the entry sorts by `≤`. -/
def groupEntryLe (p q : Option Int × List NormalizedRecord) : Bool :=
  match p.1, q.1 with
  | some x, some y => x - y ≤ 0
  | _, _ => true

/-- Embedding of `groupByExpiry` (dataUtils.js lines 156-164): build the
insertion-ordered entry list, then stable-sort the entries by the numeric
key comparator.  `List.insertionSort` is a stable sort, which is all
ECMAScript guarantees about `Array.prototype.sort`. -/
def groupByExpiry (records : List NormalizedRecord) :
    List (Option Int × List NormalizedRecord) :=
  List.insertionSort (fun p q => groupEntryLe p q = true) (records.foldl insertRow [])

/-- Strict `<` on sort keys, `false` whenever either key is `NaN`: the
form in which "keys are strictly ascending expiry timestamps" is stated. -/
def optLtB (a b : Option Int) : Bool :=
  match a, b with
  | some x, some y => x < y
  | _, _ => false

/-- `r.open_interest ?? 0`. -/
def oiKey (r : NormalizedRecord) : JsNum := r.open_interest.getD (JsNum.fin 0)

/-- ES2023 `SortCompare` for the comparator
`(a, b) => (b.open_interest ?? 0) - (a.open_interest ?? 0)`: a `NaN`
comparator value (infinite tie) counts as `0`, so `a` may precede `b` iff
the value is `≤ 0` or `NaN`. -/
def oiDescLe (a b : NormalizedRecord) : Bool :=
  match JsNum.sub (oiKey b) (oiKey a) with
  | none => true
  | some v => JsNum.le v (JsNum.fin 0)

/-- Embedding of `topInstrumentsForCandles` (dataUtils.js lines 169-174):
filter to the option type, stable-sort descending by open interest
(missing treated as `0`), truncate to `topN`. -/
def topInstrumentsForCandles (records : List NormalizedRecord) (optionType : OptionType)
    (topN : Nat) : List NormalizedRecord :=
  (List.insertionSort (fun a b => oiDescLe a b = true)
    (records.filter (fun r => r.option_type = optionType))).take topN

/-- Ticker whose expiry digits are garbage: the `Date` parse yields `NaN`. -/
def tkNaN : RawTicker :=
  { symbol := some "C-BTC-100-AB1225", product_id := none, mark_price := none,
    spot_price := none, oi := none, volume := none, turnover_usd := none,
    quotes := none, greeks := none }

/-- Normalized form of `tkNaN`: its `expiry_ms` is the `NaN` marker. -/
def recNaN : NormalizedRecord :=
  { symbol := some "C-BTC-100-AB1225", product_id := none, asset := "BTC",
    option_type := .call, strike := .fin 100, expiry_date := "2025-12-AB",
    expiry_ms := none, expiry_raw := "AB1225",
    mark_price := none, spot_price := none, bid_price := none, ask_price := none,
    bid_iv := none, ask_iv := none, bid_size := none, ask_size := none,
    open_interest := none, volume := none, turnover_usd := none,
    delta := none, gamma := none, rho := none, theta := none, vega := none }

/-- A second call record, tied with `recCall` on open interest. -/
def recCallTie : NormalizedRecord :=
  { recCall with symbol := some "C-BTC-96000-200225", strike := .fin 96000 }

/-- A call record with the later expiry `200325` (2025-03-20). -/
def recMar : NormalizedRecord :=
  { recCall with
    symbol := some "C-BTC-95200-200325"
    expiry_date := "2025-03-20"
    expiry_ms := some 1742457600000
    expiry_raw := "200325" }

-- ─── CSV codec ───────────────────────────────────────────────────────────────

/-- `"call"` / `"put"`, the strings stored in the record's `option_type`. -/
def optionTypeToString : OptionType → String
  | .call => "call"
  | .put => "put"

/-- Fractional decimal digits of `r / d` by long division, up to `fuel`
digits, stopping at remainder `0`. -/
def fracDigitChars (fuel r d : Nat) : List Char :=
  match fuel, r with
  | 0, _ => []
  | _, 0 => []
  | fuel + 1, r => Nat.digitChar (r * 10 / d) :: fracDigitChars fuel (r * 10 % d) d

/-- Model of JS number-to-string for the record's rationals: sign,
decimal digits, fractional digits up to 17 places (JS prints a shortest
binary-float representation; the exact rendering is irrelevant to the
CSV claims, which quantify over arbitrary cell strings). -/
def ratToString (q : Rat) : String :=
  let ip := Nat.toDigits 10 (q.num.natAbs / q.den)
  let frac := fracDigitChars 17 (q.num.natAbs % q.den) q.den
  (if q.num < 0 then "-" else "") ++ String.mk ip ++
    (if frac = [] then "" else "." ++ String.mk frac)

/-- `String(v)` for a JS number `v`. -/
def jsNumToString : JsNum → String
  | .fin q => ratToString q
  | .posInf => "Infinity"
  | .negInf => "-Infinity"

/-- The fixed header list of `recordsToCsv` (dataUtils.js lines 260-268). -/
def csvHeaders : List String :=
  ["symbol", "product_id", "asset", "option_type", "strike",
   "expiry_date", "expiry_raw",
   "spot_price",
   "mark_price", "bid_price", "ask_price", "bid_size", "ask_size",
   "bid_iv", "ask_iv",
   "open_interest", "volume", "turnover_usd",
   "delta", "gamma", "theta", "vega", "rho"]

/-- The cell values `r[h]` of one record in header order, as
`Option String` (`none` is JS `null`/`undefined`, which serializes to
the empty cell). -/
def recordCells (r : NormalizedRecord) : List (Option String) :=
  [r.symbol, r.product_id, some r.asset, some (optionTypeToString r.option_type),
   some (jsNumToString r.strike), some r.expiry_date, some r.expiry_raw,
   r.spot_price.map jsNumToString,
   r.mark_price.map jsNumToString, r.bid_price.map jsNumToString,
   r.ask_price.map jsNumToString, r.bid_size.map jsNumToString,
   r.ask_size.map jsNumToString,
   r.bid_iv.map jsNumToString, r.ask_iv.map jsNumToString,
   r.open_interest.map jsNumToString, r.volume.map jsNumToString,
   r.turnover_usd.map jsNumToString,
   r.delta.map jsNumToString, r.gamma.map jsNumToString,
   r.theta.map jsNumToString, r.vega.map jsNumToString,
   r.rho.map jsNumToString]

/-- Body of the `s.replace(/"/g, '""')` escape. -/
def escBody (cs : List Char) : List Char :=
  cs.flatMap (fun c => if c = '\"' then ['\"', '\"'] else [c])

/-- The per-cell escape of `recordsToCsv`: wrap in double quotes, with
inner quotes doubled, iff the cell contains a comma, quote or newline. -/
def csvEscape (cs : List Char) : List Char :=
  if cs.contains ',' || cs.contains '\"' || cs.contains '\n' then
    '\"' :: escBody cs ++ ['\"']
  else cs

/-- One serialized cell: `null`/`undefined` becomes the empty cell. -/
def csvCell : Option String → List Char
  | none => []
  | some s => csvEscape s.data

/-- `Array.prototype.join(sep)` on character lists. -/
def joinSep (sep : Char) : List (List Char) → List Char
  | [] => []
  | [x] => x
  | x :: xs => x ++ sep :: joinSep sep xs

/-- One serialized row: cells joined by commas. -/
def csvRowChars (cells : List (Option String)) : List Char :=
  joinSep ',' (cells.map csvCell)

/-- Embedding of `recordsToCsv` (dataUtils.js lines 259-281): the header
line and one escaped line per record, joined by newlines. -/
def recordsToCsv (records : List NormalizedRecord) : String :=
  String.mk (joinSep '\n'
    ((joinSep ',' (csvHeaders.map String.data)) ::
      records.map (fun r => csvRowChars (recordCells r))))

/-- Mode of the standard CSV read-back automaton. -/
inductive CsvMode where
  | raw
  | quoted
  | afterQuote
  | err
deriving DecidableEq, Repr

/-- State of the CSV read-back automaton: finished rows, finished cells
of the current row, the pending cell, and the mode. -/
structure CsvState where
  table : List (List String)
  row : List String
  cell : List Char
  mode : CsvMode
deriving DecidableEq, Repr

/-- One character step of a standard (RFC-4180-style) CSV parse. -/
def csvStep (st : CsvState) (c : Char) : CsvState :=
  match st.mode with
  | .err => st
  | .quoted =>
    if c = '\"' then { st with mode := .afterQuote }
    else { st with cell := st.cell ++ [c] }
  | .afterQuote =>
    if c = '\"' then { st with cell := st.cell ++ ['\"'], mode := .quoted }
    else if c = ',' then
      { st with row := st.row ++ [String.mk st.cell], cell := [], mode := .raw }
    else if c = '\n' then
      { st with
        table := st.table ++ [st.row ++ [String.mk st.cell]]
        row := []
        cell := []
        mode := .raw }
    else { st with mode := .err }
  | .raw =>
    if c = ',' then { st with row := st.row ++ [String.mk st.cell], cell := [] }
    else if c = '\n' then
      { st with
        table := st.table ++ [st.row ++ [String.mk st.cell]]
        row := []
        cell := [] }
    else if c = '\"' then
      if st.cell = [] then { st with mode := .quoted } else { st with mode := .err }
    else { st with cell := st.cell ++ [c] }

/-- Standard CSV parse: run the automaton and close the pending cell and
row; `none` on a malformed document (unterminated quote, stray quote). -/
def csvParse (s : String) : Option (List (List String)) :=
  let final := s.data.foldl csvStep ⟨[], [], [], .raw⟩
  match final.mode with
  | .raw => some (final.table ++ [final.row ++ [String.mk final.cell]])
  | .afterQuote => some (final.table ++ [final.row ++ [String.mk final.cell]])
  | _ => none

/-- The value a standard parse recovers for a cell: the string itself,
or the empty string for a missing ("no value") cell. -/
def cellVal : Option String → String
  | none => ""
  | some s => s

-- ─── Paginated API client ─────────────────────────────────────────────────────

/-- JSON values: error payload fields and the opaque records returned by
list endpoints. -/
inductive Json where
  | null
  | bool (b : Bool)
  | num (q : Rat)
  | str (s : String)
  | arr (xs : List Json)
  | obj (fields : List (String × Json))

/-- `JSON.stringify` escaping for one character (the common escapes). -/
def jsonEscapeChar (c : Char) : List Char :=
  if c = '\"' then ['\\', '\"']
  else if c = '\\' then ['\\', '\\']
  else if c = '\n' then ['\\', 'n']
  else if c = '\r' then ['\\', 'r']
  else if c = '\t' then ['\\', 't']
  else [c]

/-- `JSON.stringify` escaping of a string body. -/
def jsonEscape (s : String) : String := String.mk (s.data.flatMap jsonEscapeChar)

mutual

/-- Model of `JSON.stringify`. -/
def Json.stringify : Json → String
  | .null => "null"
  | .bool true => "true"
  | .bool false => "false"
  | .num q => ratToString q
  | .str s => "\"" ++ jsonEscape s ++ "\""
  | .arr xs => "[" ++ stringifyList xs ++ "]"
  | .obj fs => "\x7b" ++ stringifyFields fs ++ "\x7d"

/-- Comma-separated `JSON.stringify` of array elements. -/
def stringifyList : List Json → String
  | [] => ""
  | [x] => Json.stringify x
  | x :: xs => Json.stringify x ++ "," ++ stringifyList xs

/-- Comma-separated `JSON.stringify` of object fields. -/
def stringifyFields : List (String × Json) → String
  | [] => ""
  | [(k, v)] => "\"" ++ jsonEscape k ++ "\":" ++ Json.stringify v
  | (k, v) :: fs => "\"" ++ jsonEscape k ++ "\":" ++ Json.stringify v ++ "," ++
      stringifyFields fs

end

/-- JS truthiness of a JSON value. -/
def Json.truthy : Json → Bool
  | .null => false
  | .bool b => b
  | .num q => q ≠ 0
  | .str s => s ≠ ""
  | .arr _ => true
  | .obj _ => true

mutual

/-- JS template-literal coercion to string of a JSON value. -/
def Json.display : Json → String
  | .null => "null"
  | .bool true => "true"
  | .bool false => "false"
  | .num q => ratToString q
  | .str s => s
  | .arr xs => displayList xs
  | .obj _ => "[object Object]"

/-- `Array.prototype.toString`: elements joined by commas. -/
def displayList : List Json → String
  | [] => ""
  | [x] => Json.display x
  | x :: xs => Json.display x ++ "," ++ displayList xs

end

/-- Property lookup on a parsed JSON object (`JSON.parse` keeps the last
of duplicate keys, hence the reversed search). -/
def jsonLookup (fields : List (String × Json)) (k : String) : Option Json :=
  match fields.reverse.find? (fun p => p.1 = k) with
  | some p => some p.2
  | none => none

/-- Result of `parseErrorPayload` on an error response body: `empty` when
the body text was empty (`null` payload), `json` when `JSON.parse`
succeeded (projected to the `error` and `message` properties
`formatHttpError` reads), `raw` when it did not (`\x7b raw: text \x7d`). -/
inductive ParsedBody where
  | empty
  | json (error : Option Json) (message : Option Json)
  | raw (text : String)

/-- `replace(/\s+/g, ' ')`: collapse whitespace runs to single spaces;
the flag records whether the previous character was whitespace. -/
def collapseWsAux : List Char → Bool → List Char
  | [], _ => []
  | c :: rest, prev =>
    if isWsChar c then
      if prev then collapseWsAux rest true else ' ' :: collapseWsAux rest true
    else c :: collapseWsAux rest false

/-- `trim()` after the collapse: every whitespace is now a space. -/
def jsTrimSpaces (cs : List Char) : List Char :=
  ((cs.dropWhile (fun c => c = ' ')).reverse.dropWhile (fun c => c = ' ')).reverse

/-- The raw-body excerpt of `formatHttpError`: collapse whitespace, trim,
`slice(0, 220)`. -/
def clip220 (t : String) : String :=
  String.mk ((jsTrimSpaces (collapseWsAux t.data false)).take 220)

/-- The `payload?.message ? \x60: $\x7bpayload.message\x7d\x60 : ""` suffix. -/
def msgSuffix : Option Json → String
  | some m => if m.truthy then ": " ++ m.display else ""
  | none => ""

/-- Embedding of `formatHttpError` (dataUtils.js lines 359-376): a string
`error` property wins, then an object `error.code`, then the clipped raw
body, then the bare `HTTP status for path` text. -/
def formatHttpError (status : Nat) (path : String) (body : ParsedBody) : String :=
  let base := "HTTP " ++ toString status ++ " for " ++ path
  match body with
  | .json err msg =>
    match err with
    | some (.str e) =>
      if e ≠ "" then base ++ " (" ++ e ++ msgSuffix msg ++ ")" else base
    | some (.obj fs) =>
      match jsonLookup fs "code" with
      | some c => if c.truthy then base ++ " (" ++ c.display ++ ")" else base
      | none => base
    | some _ => base
    | none => base
  | .raw t => if t ≠ "" then base ++ " (" ++ clip220 t ++ ")" else base
  | .empty => base

/-- The typed projection of a list-endpoint payload: `success`,
`result` (`none` models an absent or `null` field), `meta?.after ?? null`
and `error`. -/
structure ApiPayload where
  success : Bool
  result : Option (List Json)
  after : Option String
  error : Option Json

/-- The payload re-assembled as a JSON value, for the
`payload.error ?? payload` fallback of the application-error message. -/
def payloadJson (p : ApiPayload) : Json :=
  Json.obj
    ([("success", Json.bool p.success)] ++
      (match p.result with | some xs => [("result", Json.arr xs)] | none => []) ++
      (match p.after with
        | some a => [("meta", Json.obj [("after", Json.str a)])]
        | none => []) ++
      (match p.error with | some e => [("error", e)] | none => []))

/-- One HTTP response as the client sees it: `response.ok` and
`response.status`, the parsed error body (read when not ok), and the
JSON payload (read when ok). -/
structure HttpResponse where
  ok : Bool
  status : Nat
  errorBody : ParsedBody
  payload : ApiPayload

/-- The application-failure message of `_get`/`_getAll`:
`Delta API error for $\x7bpath\x7d: $\x7bJSON.stringify(payload.error ?? payload)\x7d`. -/
def appErrorMsg (path : String) (p : ApiPayload) : String :=
  "Delta API error for " ++ path ++ ": " ++ Json.stringify (p.error.getD (payloadJson p))

/-- The shared error handling of `_get` and each `_getAll` page
(dataUtils.js lines 381-403 and 422-435): a non-ok response throws the
`formatHttpError` message, a success-flagged-false payload throws the
`appErrorMsg` message, and otherwise the payload is returned. -/
def checkResponse (path : String) (resp : HttpResponse) : Except String ApiPayload :=
  if !resp.ok then .error (formatHttpError resp.status path resp.errorBody)
  else if !resp.payload.success then .error (appErrorMsg path resp.payload)
  else .ok resp.payload

/-- Embedding of `_get`: on success, `payload.result ?? []`. -/
def getResult (path : String) (resp : HttpResponse) : Except String (List Json) :=
  (checkResponse path resp).map (fun p => p.result.getD [])

/-- The fixed page size of `_getAll`. -/
def PAGE_SIZE : Nat := 1000

/-- The `_getAll` loop (dataUtils.js lines 409-446) over the sequence of
responses the transport returns, one per issued request: accumulate
`payload.result ?? []`, read `payload.meta?.after ?? null`, and clear the
cursor — terminating — whenever the page is shorter than `PAGE_SIZE`.
`none` means the loop wanted another page but the modelled transport had
no response left. -/
def getAllGo (path : String) : List HttpResponse → List Json →
    Option (Except String (List Json))
  | [], _ => none
  | resp :: rest, acc =>
    match checkResponse path resp with
    | .error e => some (.error e)
    | .ok payload =>
      let page := payload.result.getD []
      let acc2 := acc ++ page
      let after := if page.length < PAGE_SIZE then none else payload.after
      match after with
      | none => some (.ok acc2)
      | some _ => getAllGo path rest acc2

/-- Embedding of `_getAll` from an empty accumulator. -/
def getAll (path : String) (responses : List HttpResponse) :
    Option (Except String (List Json)) :=
  getAllGo path responses []

/-- Substring test, used to state what an error message carries. -/
def hasSubstr (hay needle : List Char) : Bool :=
  (List.range (hay.length + 1)).any (fun i => needle.isPrefixOf (hay.drop i))

/-- A well-formed page of `n` distinct records with a cursor. -/
def fullPage (n : Nat) (after : Option String) : HttpResponse :=
  { ok := true, status := 200, errorBody := .empty,
    payload := { success := true, result := some ((List.range n).map (fun (i : Nat) => Json.num i)),
                 after := after, error := none } }

/-- The HTTP-200, `success:false` response of the C9 counterexample. -/
def respC9 : HttpResponse :=
  { ok := true, status := 200, errorBody := .empty,
    payload := { success := false, result := none, after := none,
                 error := some (.str "auth_failed") } }

/-- A transport-level failure: HTTP 500 with a whitespace-heavy raw body. -/
def resp500 : HttpResponse :=
  { ok := false, status := 500, errorBody := .raw "  oops \n\n  body ",
    payload := { success := true, result := none, after := none, error := none } }

-- ═══ Theorems ════════════════════════════════════════════════════════════════

-- ─── Helper lemmas ────────────────────────────────────────────────────────────

theorem splitChar_ne_nil (sep : Char) (cs : List Char) : splitChar sep cs ≠ [] := by
  cases cs with
  | nil => simp [splitChar]
  | cons c rest =>
    unfold splitChar
    split
    · simp
    · split <;> simp

theorem splitChar_not_mem (sep : Char) (cs : List Char) :
    ∀ p ∈ splitChar sep cs, sep ∉ p := by
  induction cs with
  | nil => intro p hp; simp [splitChar] at hp; simp [hp]
  | cons c rest ih =>
    intro p hp
    unfold splitChar at hp
    by_cases hc : c = sep
    · simp [hc] at hp
      rcases hp with h | h
      · simp [h]
      · exact ih p h
    · simp [hc] at hp
      rcases hps : splitChar sep rest with _ | ⟨p₀, ps⟩
      · exact absurd hps (splitChar_ne_nil sep rest)
      · rw [hps] at hp
        simp at hp
        rcases hp with h | h
        · subst h
          intro hmem
          rcases List.mem_cons.mp hmem with h | h
          · exact hc h.symm
          · exact ih p₀ (hps ▸ List.mem_cons_self p₀ ps) h
        · exact ih p (hps ▸ List.mem_cons_of_mem p₀ h)

theorem ratMul_eq (a b : Rat) : ratMul a b = a * b := by
  unfold ratMul
  conv_rhs => rw [← Rat.mkRat_self a, ← Rat.mkRat_self b]
  rw [Rat.mkRat_mul_mkRat]

theorem ratAdd_eq (a b : Rat) : ratAdd a b = a + b := by
  unfold ratAdd
  conv_rhs => rw [← Rat.mkRat_self a, ← Rat.mkRat_self b]
  rw [Rat.mkRat_add_mkRat _ _ a.den_nz b.den_nz]

theorem ratSub_eq (a b : Rat) : ratSub a b = a - b := by
  unfold ratSub
  have hb : mkRat (-b.num) b.den = -b := by
    rw [← Rat.neg_mkRat, Rat.mkRat_self]
  rw [hb, ratAdd_eq, sub_eq_add_neg]

theorem pow10_eq (k : Int) : pow10 k = (10 : Rat) ^ k := by
  cases k with
  | ofNat n =>
    show mkRat (10 ^ n) 1 = _
    rw [Rat.mkRat_one]
    push_cast
    rw [Int.ofNat_eq_natCast, zpow_natCast]
  | negSucc n =>
    show mkRat 1 (10 ^ (n + 1)) = _
    rw [Rat.mkRat_eq_div, zpow_negSucc]
    push_cast
    rw [one_div]

theorem pow10_pos (k : Int) : 0 < pow10 k := by
  rw [pow10_eq]
  positivity

theorem exponentFactor_pos (cs : List Char) : 0 < exponentFactor cs := by
  unfold exponentFactor
  split
  · split
    · split <;> dsimp only <;> split
      · norm_num
      · exact pow10_pos _
      · norm_num
      · exact pow10_pos _
      · norm_num
      · exact pow10_pos _
    · norm_num
  · norm_num

theorem fracOfDigits_nonneg (cs : List Char) : 0 ≤ fracOfDigits cs := by
  unfold fracOfDigits
  rw [Rat.mkRat_eq_div]
  positivity

theorem parseUnsigned_nonneg (cs : List Char) (n : JsNum)
    (h : parseUnsigned cs = some n) :
    n = JsNum.posInf ∨ ∃ q, n = JsNum.fin q ∧ 0 ≤ q := by
  unfold parseUnsigned at h
  have hnat : ∀ ds : List Char, (0 : Rat) ≤ (natOfDigits ds : Rat) :=
    fun ds => Nat.cast_nonneg _
  split at h
  · exact Or.inl (by injection h with h'; exact h'.symm)
  · dsimp only at h
    split at h
    · split at h
      · split at h
        · exact absurd h (by simp)
        · refine Or.inr ⟨_, (by injection h with h'; exact h'.symm), ?_⟩
          rw [ratMul_eq]
          exact mul_nonneg (fracOfDigits_nonneg _) (le_of_lt (exponentFactor_pos _))
      · exact absurd h (by simp)
    · split at h
      · refine Or.inr ⟨_, (by injection h with h'; exact h'.symm), ?_⟩
        rw [ratMul_eq, ratAdd_eq]
        exact mul_nonneg (add_nonneg (hnat _) (fracOfDigits_nonneg _))
          (le_of_lt (exponentFactor_pos _))
      · refine Or.inr ⟨_, (by injection h with h'; exact h'.symm), ?_⟩
        rw [ratMul_eq]
        exact mul_nonneg (hnat _) (le_of_lt (exponentFactor_pos _))

theorem jsParseFloat_nonneg (cs : List Char) (n : JsNum)
    (hm : '-' ∉ cs) (h : jsParseFloat cs = some n) :
    n = JsNum.posInf ∨ ∃ q, n = JsNum.fin q ∧ 0 ≤ q := by
  unfold jsParseFloat at h
  have hm' : '-' ∉ cs.dropWhile isWsChar := fun hmem =>
    hm ((List.dropWhile_sublist isWsChar).mem hmem)
  dsimp only at h
  split at h
  · next heq =>
    exact absurd (heq ▸ List.mem_cons_self '-' _) hm'
  · exact parseUnsigned_nonneg _ _ h
  · exact parseUnsigned_nonneg _ _ h

theorem JsNum.not_lt_le (a b : JsNum) (h : JsNum.lt a b = false) :
    JsNum.le b a = true := by
  cases a <;> cases b <;> simp_all [JsNum.lt, JsNum.le]

theorem lenientNum_spec (src : Option String) :
    LenientField src (lenientNum src) := by
  refine ⟨?_, ?_, ?_, ?_⟩
  · intro h; simp [lenientNum, h]
  · intro s hs hpf; simp [lenientNum, hs, hpf]
  · intro s hs hpf; simp [lenientNum, hs, hpf]
  · intro s n hs hpf hn; simp [lenientNum, hs, hpf, hn]

-- ─── C5 ───────────────────────────────────────────────────────────────────────

/-- C5: for every malformed symbol string — fewer than 4 dash-separated
segments, a first segment other than `C`/`P`, a strike segment that does
not parse as a number (`parseFloat` gives `NaN`), or an expiry segment
shorter than 6 characters — `parseOptionSymbol` returns `none`; the
embedding is a total function, so no exception is possible. -/
theorem parseOptionSymbol_malformed (s : String)
    (h : (splitChar '-' s.data).length < 4 ∨
      ∀ t a st e r, splitChar '-' s.data = t :: a :: st :: e :: r →
        (t ≠ ['C'] ∧ t ≠ ['P']) ∨ jsParseFloat st = none ∨ e.length < 6) :
    parseOptionSymbol s = none := by
  unfold parseOptionSymbol
  split
  · rfl
  · rcases hsp : splitChar '-' s.data with _ | ⟨t, _ | ⟨a, _ | ⟨st, _ | ⟨e, r⟩⟩⟩⟩
    any_goals rfl
    rcases h with hlen | hp
    · rw [hsp] at hlen
      simp only [List.length_cons] at hlen
      omega
    · simp only [parseParts]
      rcases hp t a st e r hsp with ⟨ht1, ht2⟩ | hpf | hexp
      · rw [if_pos ⟨ht1, ht2⟩]
      · by_cases hC : t ≠ ['C'] ∧ t ≠ ['P']
        · rw [if_pos hC]
        · rw [if_neg hC]
          split
          · rfl
          · next n heq => exact absurd (hpf ▸ heq) (by simp)
      · by_cases hC : t ≠ ['C'] ∧ t ≠ ['P']
        · rw [if_pos hC]
        · rw [if_neg hC]
          split
          · rfl
          · exact if_pos hexp

/-- Witness for C5 at the concrete two-segment symbol `"C-BTC"`. -/
theorem parseOptionSymbol_malformed_witness : parseOptionSymbol "C-BTC" = none :=
  parseOptionSymbol_malformed "C-BTC" (Or.inl (by decide))

-- ─── C6 ───────────────────────────────────────────────────────────────────────

/-- C6 counterexample: `"C-BTC-Infinity-ABCDEFG"` parses successfully, yet
its `expiryRaw` is 7 characters long and not made of digits, and its
strike is `+Infinity`, not a finite number — refuting the claimed
data-model invariant. -/
theorem parseOptionSymbol_invariant_counterexample :
    ¬ (∀ (s : String) (r : OptionSymbol), parseOptionSymbol s = some r →
        (r.expiryRaw.length = 6 ∧ r.expiryRaw.data.all Char.isDigit) ∧
        (∃ q, r.strike = JsNum.fin q ∧ 0 ≤ q) ∧
        (r.optionType = OptionType.call ∨ r.optionType = OptionType.put)) := by
  intro h
  have hx := h "C-BTC-Infinity-ABCDEFG"
    ⟨OptionType.call, "BTC", JsNum.posInf, "20EF-CD-AB", none, "ABCDEFG"⟩ (by decide)
  exact absurd hx.1.1 (by decide)

/-- C6 (amended): whenever `parseOptionSymbol` succeeds, `expiryRaw` has at
least 6 characters (the code checks only a lower bound, and never that
they are digits), the strike is a non-`NaN` non-negative number which may
be `+Infinity`, and the option type is one of the two variants. -/
theorem parseOptionSymbol_success_invariant (s : String) (r : OptionSymbol)
    (h : parseOptionSymbol s = some r) :
    6 ≤ r.expiryRaw.length ∧
    (r.strike = JsNum.posInf ∨ ∃ q, r.strike = JsNum.fin q ∧ 0 ≤ q) ∧
    (r.optionType = OptionType.call ∨ r.optionType = OptionType.put) := by
  unfold parseOptionSymbol at h
  split at h
  · exact absurd h (by simp)
  · rcases hsp : splitChar '-' s.data with _ | ⟨t, _ | ⟨a, _ | ⟨st, _ | ⟨e, rest⟩⟩⟩⟩ <;>
      rw [hsp] at h
    any_goals exact Option.noConfusion h
    simp only [parseParts] at h
    split at h
    · exact absurd h (by simp)
    · split at h
      · exact absurd h (by simp)
      · next n hpf =>
        split at h
        · exact absurd h (by simp)
        · next hlen =>
          injection h with h'
          subst h'
          refine ⟨by simpa using Nat.le_of_not_lt hlen, ?_, ?_⟩
          · have hmem : st ∈ splitChar '-' s.data := by
              rw [hsp]
              exact List.mem_cons_of_mem _ (List.mem_cons_of_mem _ (List.mem_cons_self _ _))
            exact jsParseFloat_nonneg st n (splitChar_not_mem '-' s.data st hmem) hpf
          · by_cases hc : t = ['C']
            · simp [hc]
            · simp [hc]

/-- Witness for the amended C6 at the concrete symbol
`"C-BTC-95200-200225"`. -/
theorem parseOptionSymbol_success_invariant_witness :
    6 ≤ (OptionSymbol.mk OptionType.call "BTC" (JsNum.fin 95200) "2025-02-20"
          (some 1740038400000) "200225").expiryRaw.length ∧
    ((OptionSymbol.mk OptionType.call "BTC" (JsNum.fin 95200) "2025-02-20"
          (some 1740038400000) "200225").strike = JsNum.posInf ∨
      ∃ q, (OptionSymbol.mk OptionType.call "BTC" (JsNum.fin 95200) "2025-02-20"
          (some 1740038400000) "200225").strike = JsNum.fin q ∧ 0 ≤ q) ∧
    ((OptionSymbol.mk OptionType.call "BTC" (JsNum.fin 95200) "2025-02-20"
          (some 1740038400000) "200225").optionType = OptionType.call ∨
      (OptionSymbol.mk OptionType.call "BTC" (JsNum.fin 95200) "2025-02-20"
          (some 1740038400000) "200225").optionType = OptionType.put) :=
  parseOptionSymbol_success_invariant "C-BTC-95200-200225" _ (by decide)

-- ─── C1 ───────────────────────────────────────────────────────────────────────

/-- C1 counterexample: a ticker whose `oi` field is the number `0` (every
JSON number reaches `parseFloat` as its string form) normalizes with
`open_interest = none` — the "no value" marker — because
`parseFloat(v) || null` treats the falsy `0` like a missing value.  The
claim says such a field is carried through as `0`. -/
theorem normalizeTicker_zero_counterexample :
    ¬ (∀ (t : RawTicker) (r : NormalizedRecord), normalizeTicker t = some r →
        ∀ s, t.oi = some s → jsParseFloat s.data = some (JsNum.fin 0) →
          r.open_interest = some (JsNum.fin 0)) := by
  intro h
  have hx := h tkPut recPut (by decide) "0" rfl (by decide)
  exact absurd hx (by decide)

/-- C1 (amended): for every raw ticker whose symbol parses, each numeric
field (pricing, sizes, implied volatilities, open interest, volume,
turnover and every greek) obeys the implemented leniency rule: an absent
or non-numeric source collapses to the "no value" marker, **and so does a
source whose parsed value is the number `0`**; every other parsed number
is carried through unchanged. -/
theorem normalizeTicker_lenient (t : RawTicker) (r : NormalizedRecord)
    (h : normalizeTicker t = some r) :
    LenientField t.mark_price r.mark_price ∧
    LenientField t.spot_price r.spot_price ∧
    LenientField (t.quotes.getD emptyQuotes).best_bid r.bid_price ∧
    LenientField (t.quotes.getD emptyQuotes).best_ask r.ask_price ∧
    LenientField (t.quotes.getD emptyQuotes).bid_iv r.bid_iv ∧
    LenientField (t.quotes.getD emptyQuotes).ask_iv r.ask_iv ∧
    LenientField (t.quotes.getD emptyQuotes).bid_size r.bid_size ∧
    LenientField (t.quotes.getD emptyQuotes).ask_size r.ask_size ∧
    LenientField t.oi r.open_interest ∧
    LenientField t.volume r.volume ∧
    LenientField t.turnover_usd r.turnover_usd ∧
    LenientField (t.greeks.getD emptyGreeks).delta r.delta ∧
    LenientField (t.greeks.getD emptyGreeks).gamma r.gamma ∧
    LenientField (t.greeks.getD emptyGreeks).rho r.rho ∧
    LenientField (t.greeks.getD emptyGreeks).theta r.theta ∧
    LenientField (t.greeks.getD emptyGreeks).vega r.vega := by
  unfold normalizeTicker at h
  split at h
  · exact absurd h (by simp)
  · injection h with h'
    subst h'
    exact ⟨lenientNum_spec _, lenientNum_spec _, lenientNum_spec _, lenientNum_spec _,
      lenientNum_spec _, lenientNum_spec _, lenientNum_spec _, lenientNum_spec _,
      lenientNum_spec _, lenientNum_spec _, lenientNum_spec _, lenientNum_spec _,
      lenientNum_spec _, lenientNum_spec _, lenientNum_spec _, lenientNum_spec _⟩

/-- Witness for the amended C1: the put ticker's zero open interest
collapses to the marker, the call ticker's open interest `10` is carried
through. -/
theorem normalizeTicker_lenient_witness :
    recPut.open_interest = none ∧ recCall.open_interest = some (JsNum.fin 10) :=
  ⟨((normalizeTicker_lenient tkPut recPut (by decide)).2.2.2.2.2.2.2.2.1).2.2.1
      "0" rfl (by decide),
    ((normalizeTicker_lenient tkCall recCall (by decide)).2.2.2.2.2.2.2.2.1).2.2.2
      "10" (JsNum.fin 10) rfl (by decide) (by decide)⟩

-- ─── C7 ───────────────────────────────────────────────────────────────────────

/-- C7: `normalizeOptionChain` (the spec's `normalizeMany`) with
`minOpenInterest = 0` keeps every record whose open-interest datum is
missing; with a positive threshold `N` every retained record has
`open_interest ?? 0` at least `N`; and the output is always a sublist of
the normalized input (input order preserved, records only dropped). -/
theorem normalizeOptionChain_spec (tickers : List RawTicker) :
    (∀ t ∈ tickers, ∀ r, normalizeTicker t = some r → r.open_interest = none →
      r ∈ normalizeOptionChain tickers 0) ∧
    (∀ N : Rat, 0 < N → ∀ r ∈ normalizeOptionChain tickers N,
      JsNum.le (JsNum.fin N) (r.open_interest.getD (JsNum.fin 0)) = true) ∧
    (∀ m : Rat, List.Sublist (normalizeOptionChain tickers m) (tickers.filterMap normalizeTicker)) := by
  refine ⟨?_, ?_, ?_⟩
  · induction tickers with
    | nil => intro t ht; simp at ht
    | cons t0 rest ih =>
      intro t ht r hr hoi
      rcases List.mem_cons.mp ht with heq | hmem
      · subst heq
        have hlt : JsNum.lt (r.open_interest.getD (JsNum.fin 0)) (JsNum.fin 0) = false := by
          rw [hoi]
          decide
        simp [normalizeOptionChain, hr, hlt]
      · have hr' := ih t hmem r hr hoi
        rcases h0 : normalizeTicker t0 with _ | r0
        · simpa [normalizeOptionChain, h0] using hr'
        · by_cases hlt : JsNum.lt (r0.open_interest.getD (JsNum.fin 0)) (JsNum.fin 0) = true
          · simpa [normalizeOptionChain, h0, hlt] using hr'
          · simp only [normalizeOptionChain, h0, Bool.not_eq_true] at hlt ⊢
            rw [if_neg (by simp [hlt])]
            exact List.mem_cons_of_mem _ hr'
  · induction tickers with
    | nil => intro N hN r hr; simp [normalizeOptionChain] at hr
    | cons t0 rest ih =>
      intro N hN r hr
      rcases h0 : normalizeTicker t0 with _ | r0 <;>
        simp only [normalizeOptionChain, h0] at hr
      · exact ih N hN r hr
      · split at hr
        · exact ih N hN r hr
        · next hlt =>
          rcases List.mem_cons.mp hr with heq | hmem
          · subst heq
            exact JsNum.not_lt_le _ _ (Bool.not_eq_true _ ▸ hlt)
          · exact ih N hN r hmem
  · induction tickers with
    | nil => intro m; simp [normalizeOptionChain]
    | cons t0 rest ih =>
      intro m
      rcases h0 : normalizeTicker t0 with _ | r0 <;>
        simp only [normalizeOptionChain, h0, List.filterMap_cons]
      · exact ih m
      · split
        · exact (ih m).cons r0
        · exact (ih m).cons₂ r0

/-- Witness for C7 on the spec's end-to-end pair of tickers: the
missing-OI put survives threshold 0, the retained call at threshold 5 has
OI ≥ 5, and the threshold-5 output is a sublist of the normalized input. -/
theorem normalizeOptionChain_spec_witness :
    recPut ∈ normalizeOptionChain [tkCall, tkPut] 0 ∧
    JsNum.le (JsNum.fin 5) (recCall.open_interest.getD (JsNum.fin 0)) = true ∧
    List.Sublist (normalizeOptionChain [tkCall, tkPut] 5)
      (List.filterMap normalizeTicker [tkCall, tkPut]) :=
  ⟨(normalizeOptionChain_spec [tkCall, tkPut]).1 tkPut (by simp) recPut (by decide) (by decide),
    (normalizeOptionChain_spec [tkCall, tkPut]).2.1 5 (by norm_num) recCall (by decide),
    (normalizeOptionChain_spec [tkCall, tkPut]).2.2 5⟩

-- ─── groupByExpiry machinery ──────────────────────────────────────────────────

theorem keys_insertRow (m : List (Option Int × List NormalizedRecord))
    (row : NormalizedRecord) :
    (insertRow m row).map Prod.fst =
      if m.any (fun p => p.1 = row.expiry_ms) then m.map Prod.fst
      else m.map Prod.fst ++ [row.expiry_ms] := by
  unfold insertRow
  split
  · rw [List.map_map]
    refine List.map_congr_left fun p _ => ?_
    dsimp only [Function.comp]
    split <;> rfl
  · simp

theorem insertRow_map_id (rest : List (Option Int × List NormalizedRecord))
    (row : NormalizedRecord) (h : ∀ q ∈ rest, ¬ q.1 = row.expiry_ms) :
    rest.map (fun q => if q.1 = row.expiry_ms then (q.1, q.2 ++ [row]) else q) = rest := by
  induction rest with
  | nil => rfl
  | cons q rest ih =>
    simp only [List.map_cons]
    rw [if_neg (h q (List.mem_cons_self q rest)),
      ih (fun x hx => h x (List.mem_cons_of_mem q hx))]

theorem flatten_insertRow_any (m : List (Option Int × List NormalizedRecord))
    (row : NormalizedRecord) :
    (m.map Prod.fst).Nodup →
    m.any (fun p => p.1 = row.expiry_ms) = true →
    List.Perm
      (((m.map (fun p => if p.1 = row.expiry_ms then (p.1, p.2 ++ [row]) else p)).map
        Prod.snd).flatten)
      ((m.map Prod.snd).flatten ++ [row]) := by
  induction m with
  | nil => intro _ hany; simp at hany
  | cons p rest ih =>
    intro hnd hany
    simp only [List.map_cons, List.flatten_cons]
    by_cases hp : p.1 = row.expiry_ms
    · rw [if_pos hp]
      have hid : rest.map (fun q => if q.1 = row.expiry_ms then (q.1, q.2 ++ [row]) else q)
          = rest := by
        refine insertRow_map_id rest row fun q hq hq1 => ?_
        exact (List.nodup_cons.mp hnd).1
          (hp ▸ hq1 ▸ List.mem_map_of_mem Prod.fst hq)
      rw [hid, List.append_assoc, List.append_assoc]
      exact List.Perm.append_left p.2 List.perm_append_comm
    · rw [if_neg hp]
      have hany' : rest.any (fun q => q.1 = row.expiry_ms) = true := by
        simpa [List.any_cons, hp] using hany
      rw [List.append_assoc]
      exact List.Perm.append_left p.2 (ih (List.nodup_cons.mp hnd).2 hany')

theorem insertRow_inv (m : List (Option Int × List NormalizedRecord))
    (row : NormalizedRecord) (pre : List NormalizedRecord)
    (hnd : (m.map Prod.fst).Nodup)
    (hgr : ∀ k g, (k, g) ∈ m → g = pre.filter (fun r => r.expiry_ms = k))
    (hks : ∀ k, k ∈ m.map Prod.fst ↔ ∃ r ∈ pre, r.expiry_ms = k)
    (hfl : List.Perm ((m.map Prod.snd).flatten) pre) :
    ((insertRow m row).map Prod.fst).Nodup ∧
    (∀ k g, (k, g) ∈ insertRow m row →
      g = (pre ++ [row]).filter (fun r => r.expiry_ms = k)) ∧
    (∀ k, k ∈ (insertRow m row).map Prod.fst ↔ ∃ r ∈ pre ++ [row], r.expiry_ms = k) ∧
    List.Perm (((insertRow m row).map Prod.snd).flatten) (pre ++ [row]) := by
  by_cases hany : m.any (fun p => p.1 = row.expiry_ms) = true
  · have hins : insertRow m row =
        m.map (fun p => if p.1 = row.expiry_ms then (p.1, p.2 ++ [row]) else p) := by
      unfold insertRow
      rw [if_pos hany]
    have hkeys : (insertRow m row).map Prod.fst = m.map Prod.fst := by
      rw [keys_insertRow, if_pos hany]
    refine ⟨hkeys ▸ hnd, ?_, ?_, ?_⟩
    · intro k g hkg
      rw [hins] at hkg
      obtain ⟨p, hpmem, hfp⟩ := List.mem_map.mp hkg
      by_cases hp : p.1 = row.expiry_ms
      · rw [if_pos hp, Prod.mk.injEq] at hfp
        obtain ⟨hk, hg⟩ := hfp
        subst hk
        subst hg
        have hrow : List.filter (fun r => r.expiry_ms = p.1) [row] = [row] := by
          simp [hp.symm]
        rw [List.filter_append, hrow, ← hgr p.1 p.2 hpmem]
      · rw [if_neg hp] at hfp
        have hk : p.1 = k := congrArg Prod.fst hfp
        subst hk
        have hg : p.2 = g := congrArg Prod.snd hfp
        subst hg
        have hrow : List.filter (fun r => r.expiry_ms = p.1) [row] = [] := by
          simp [Ne.symm hp]
        rw [List.filter_append, hrow, List.append_nil, ← hgr p.1 p.2 hpmem]
    · intro k
      rw [hkeys, hks k]
      constructor
      · rintro ⟨r, hr, hrk⟩
        exact ⟨r, List.mem_append_left _ hr, hrk⟩
      · rintro ⟨r, hr, hrk⟩
        rcases List.mem_append.mp hr with h | h
        · exact ⟨r, h, hrk⟩
        · rw [List.mem_singleton] at h
          subst h
          obtain ⟨p, hpmem, hpk⟩ := List.any_eq_true.mp hany
          rw [decide_eq_true_iff] at hpk
          exact (hks k).mp (List.mem_map.mpr ⟨p, hpmem, by rw [hpk, hrk]⟩)
    · rw [hins]
      exact (flatten_insertRow_any m row hnd hany).trans (List.Perm.append_right [row] hfl)
  · have hnotin : row.expiry_ms ∉ m.map Prod.fst := by
      intro hmem
      obtain ⟨p, hpmem, hpk⟩ := List.mem_map.mp hmem
      exact hany (List.any_eq_true.mpr ⟨p, hpmem, by simp [hpk]⟩)
    have hins : insertRow m row = m ++ [(row.expiry_ms, [row])] := by
      unfold insertRow
      rw [if_neg hany]
    have hkeys : (insertRow m row).map Prod.fst = m.map Prod.fst ++ [row.expiry_ms] := by
      rw [keys_insertRow, if_neg hany]
    refine ⟨?_, ?_, ?_, ?_⟩
    · rw [hkeys]
      refine List.Nodup.append hnd (List.nodup_singleton _) ?_
      intro a ha hb
      rw [List.mem_singleton] at hb
      subst hb
      exact hnotin ha
    · intro k g hkg
      rw [hins] at hkg
      rcases List.mem_append.mp hkg with h | h
      · have hkne : ¬ row.expiry_ms = k := by
          intro he
          exact hnotin (he ▸ List.mem_map.mpr ⟨(k, g), h, rfl⟩)
        have hrow : List.filter (fun r => r.expiry_ms = k) [row] = [] := by
          simp [hkne]
        rw [List.filter_append, hrow, List.append_nil]
        exact hgr k g h
      · rw [List.mem_singleton, Prod.mk.injEq] at h
        obtain ⟨hk, hg⟩ := h
        subst hk
        subst hg
        have hpre : pre.filter (fun r => r.expiry_ms = row.expiry_ms) = [] := by
          rw [List.filter_eq_nil_iff]
          intro r hr hrk
          rw [decide_eq_true_iff] at hrk
          exact hnotin ((hks row.expiry_ms).mpr ⟨r, hr, hrk⟩)
        have hrow : List.filter (fun r => r.expiry_ms = row.expiry_ms) [row] = [row] := by
          simp
        rw [List.filter_append, hpre, hrow, List.nil_append]
    · intro k
      rw [hkeys]
      constructor
      · intro hk
        rcases List.mem_append.mp hk with h | h
        · obtain ⟨r, hr, hrk⟩ := (hks k).mp h
          exact ⟨r, List.mem_append_left _ hr, hrk⟩
        · rw [List.mem_singleton] at h
          exact ⟨row, List.mem_append_right _ (List.mem_singleton_self row), h.symm⟩
      · rintro ⟨r, hr, hrk⟩
        rcases List.mem_append.mp hr with h | h
        · exact List.mem_append_left _ ((hks k).mpr ⟨r, h, hrk⟩)
        · rw [List.mem_singleton] at h
          subst h
          exact List.mem_append_right _ (List.mem_singleton.mpr hrk.symm)
    · rw [hins]
      have hone : (([(row.expiry_ms, [row])].map Prod.snd).flatten) = [row] := by simp
      rw [List.map_append, List.flatten_append, hone]
      exact List.Perm.append_right [row] hfl

theorem foldl_insertRow_inv (rs : List NormalizedRecord) :
    ∀ (m : List (Option Int × List NormalizedRecord)) (pre : List NormalizedRecord),
      (m.map Prod.fst).Nodup →
      (∀ k g, (k, g) ∈ m → g = pre.filter (fun r => r.expiry_ms = k)) →
      (∀ k, k ∈ m.map Prod.fst ↔ ∃ r ∈ pre, r.expiry_ms = k) →
      List.Perm ((m.map Prod.snd).flatten) pre →
      ((rs.foldl insertRow m).map Prod.fst).Nodup ∧
      (∀ k g, (k, g) ∈ rs.foldl insertRow m →
        g = (pre ++ rs).filter (fun r => r.expiry_ms = k)) ∧
      (∀ k, k ∈ (rs.foldl insertRow m).map Prod.fst ↔ ∃ r ∈ pre ++ rs, r.expiry_ms = k) ∧
      List.Perm (((rs.foldl insertRow m).map Prod.snd).flatten) (pre ++ rs) := by
  induction rs with
  | nil =>
    intro m pre h1 h2 h3 h4
    rw [List.foldl_nil, List.append_nil]
    exact ⟨h1, h2, h3, h4⟩
  | cons r0 rest ih =>
    intro m pre h1 h2 h3 h4
    obtain ⟨g1, g2, g3, g4⟩ := insertRow_inv m r0 pre h1 h2 h3 h4
    have hres := ih (insertRow m r0) (pre ++ [r0]) g1 g2 g3 g4
    simpa [List.append_assoc] using hres

-- ─── C3 ───────────────────────────────────────────────────────────────────────

/-- C3 counterexample: the pipeline can emit a record whose expiry
timestamp is `NaN` (garbage expiry digits survive `parseOptionSymbol`),
and grouping a list containing such a record yields an iteration order
whose keys are *not* strictly ascending timestamps. -/
theorem groupByExpiry_ascending_counterexample :
    normalizeTicker tkNaN = some recNaN ∧
    ¬ (∀ records : List NormalizedRecord,
        List.Pairwise (fun a b => optLtB a b = true)
          ((groupByExpiry records).map Prod.fst)) := by
  refine ⟨by decide, fun h => ?_⟩
  exact absurd (h [recCall, recNaN]) (by decide)

/-- C3 (amended): for every record list, `groupByExpiry` yields groups
that are exactly the in-order input records with that expiry key, one
group per distinct key (keys `Nodup`, key present iff some record has
it), and the concatenation of all groups is a permutation of the input
(no loss, no duplication); the keys in iteration order are strictly
ascending **provided every record's expiry timestamp is valid
(non-`NaN`)** — a `NaN`-expiry record breaks strict ascent. -/
theorem groupByExpiry_spec (records : List NormalizedRecord) :
    ((∀ r ∈ records, r.expiry_ms ≠ none) →
      List.Pairwise (fun a b => optLtB a b = true)
        ((groupByExpiry records).map Prod.fst)) ∧
    (∀ k g, (k, g) ∈ groupByExpiry records →
      g = records.filter (fun r => r.expiry_ms = k)) ∧
    (∀ k, (∃ g, (k, g) ∈ groupByExpiry records) ↔ ∃ r ∈ records, r.expiry_ms = k) ∧
    ((groupByExpiry records).map Prod.fst).Nodup ∧
    List.Perm (((groupByExpiry records).map Prod.snd).flatten) records := by
  obtain ⟨h1, h2, h3, h4⟩ := foldl_insertRow_inv records [] []
    (by simp) (by simp) (by simp) (by simp)
  rw [List.nil_append] at h2 h3 h4
  have hperm : List.Perm (groupByExpiry records) (records.foldl insertRow []) :=
    List.perm_insertionSort _ _
  have hkeysperm : List.Perm ((groupByExpiry records).map Prod.fst)
      ((records.foldl insertRow []).map Prod.fst) := hperm.map Prod.fst
  have hnd' : ((groupByExpiry records).map Prod.fst).Nodup :=
    (List.Perm.nodup_iff hkeysperm).mpr h1
  refine ⟨?_, ?_, ?_, hnd', ?_⟩
  · intro hvalid
    have hsome : ∀ p ∈ records.foldl insertRow [], ∃ x, p.1 = some x := by
      intro p hp
      obtain ⟨r, hr, hrk⟩ := (h3 p.1).mp (List.mem_map_of_mem Prod.fst hp)
      rcases hx : p.1 with _ | x
      · exact absurd (hrk.trans hx) (hvalid r hr)
      · exact ⟨x, rfl⟩
    have hl : ∀ a ∈ records.foldl insertRow [], ∀ b ∈ records.foldl insertRow [],
        (groupEntryLe a b = true ↔
          ((fun p : Option Int × List NormalizedRecord =>
            (p.1.getD 0, p.2)) a).1 ≤
          ((fun p : Option Int × List NormalizedRecord =>
            (p.1.getD 0, p.2)) b).1) := by
      intro a ha b hb
      obtain ⟨x, hx⟩ := hsome a ha
      obtain ⟨y, hy⟩ := hsome b hb
      unfold groupEntryLe
      rw [hx, hy]
      simp [sub_nonpos, hx, hy]
    letI : IsTotal (Int × List NormalizedRecord) (fun p q => p.1 ≤ q.1) :=
      ⟨fun a b => le_total a.1 b.1⟩
    letI : IsTrans (Int × List NormalizedRecord) (fun p q => p.1 ≤ q.1) :=
      ⟨fun a b c hab hbc => le_trans hab hbc⟩
    have hmap := List.map_insertionSort
      (fun p q : Option Int × List NormalizedRecord => groupEntryLe p q = true)
      (fun p q : Int × List NormalizedRecord => p.1 ≤ q.1)
      (fun p : Option Int × List NormalizedRecord => (p.1.getD 0, p.2))
      (records.foldl insertRow []) hl
    have hsorted := List.sorted_insertionSort
      (fun p q : Int × List NormalizedRecord => p.1 ≤ q.1)
      ((records.foldl insertRow []).map
        (fun p : Option Int × List NormalizedRecord => (p.1.getD 0, p.2)))
    rw [← hmap] at hsorted
    have hsorted' : List.Sorted (fun p q : Int × List NormalizedRecord => p.1 ≤ q.1)
        ((groupByExpiry records).map
          (fun p : Option Int × List NormalizedRecord => (p.1.getD 0, p.2))) := hsorted
    have hpair1 : List.Pairwise
        (fun p q : Option Int × List NormalizedRecord => p.1.getD 0 ≤ q.1.getD 0)
        (groupByExpiry records) := by
      rwa [List.Sorted, List.pairwise_map] at hsorted'
    have hpair2 : List.Pairwise
        (fun p q : Option Int × List NormalizedRecord => p.1 ≠ q.1)
        (groupByExpiry records) := by
      have hnd'' := hnd'
      rwa [List.Nodup, List.pairwise_map] at hnd''
    have hmem : ∀ p ∈ groupByExpiry records, ∃ x, p.1 = some x :=
      fun p hp => hsome p (hperm.mem_iff.mp hp)
    refine List.pairwise_map.mpr ?_
    refine List.Pairwise.imp_of_mem ?_ (hpair1.and hpair2)
    intro a b ha hb hr
    obtain ⟨hle, hne⟩ := hr
    obtain ⟨x, hx⟩ := hmem a ha
    obtain ⟨y, hy⟩ := hmem b hb
    rw [hx, hy] at hle hne
    unfold optLtB
    rw [hx, hy]
    simp only [Option.getD_some] at hle
    have hxy : x ≠ y := fun he => hne (he ▸ rfl)
    simp [lt_of_le_of_ne hle hxy]
  · intro k g hkg
    exact h2 k g (hperm.mem_iff.mp hkg)
  · intro k
    constructor
    · rintro ⟨g, hg⟩
      exact (h3 k).mp (List.mem_map.mpr ⟨(k, g), hperm.mem_iff.mp hg, rfl⟩)
    · intro hex
      obtain ⟨p, hp, hpk⟩ := List.mem_map.mp ((h3 k).mpr hex)
      refine ⟨p.2, hperm.mem_iff.mpr ?_⟩
      rw [← hpk, Prod.mk.eta]
      exact hp
  · exact ((hperm.map Prod.snd).flatten).trans h4

/-- Witness for the amended C3 on two concrete records with out-of-order
valid expiries. -/
theorem groupByExpiry_spec_witness :
    List.Pairwise (fun a b => optLtB a b = true)
      ((groupByExpiry [recMar, recCall]).map Prod.fst) ∧
    [recCall] = List.filter (fun r => r.expiry_ms = some 1740038400000) [recMar, recCall] ∧
    (∃ g, (some 1740038400000, g) ∈ groupByExpiry [recMar, recCall]) ∧
    ((groupByExpiry [recMar, recCall]).map Prod.fst).Nodup ∧
    List.Perm (((groupByExpiry [recMar, recCall]).map Prod.snd).flatten)
      [recMar, recCall] :=
  ⟨(groupByExpiry_spec [recMar, recCall]).1 (by decide),
    (groupByExpiry_spec [recMar, recCall]).2.1 (some 1740038400000) [recCall] (by decide),
    ((groupByExpiry_spec [recMar, recCall]).2.2.1 (some 1740038400000)).mpr
      ⟨recCall, by decide, by decide⟩,
    (groupByExpiry_spec [recMar, recCall]).2.2.2.1,
    (groupByExpiry_spec [recMar, recCall]).2.2.2.2⟩

-- ─── C4 ───────────────────────────────────────────────────────────────────────

theorem JsNum.le_refl' (a : JsNum) : JsNum.le a a = true := by
  cases a <;> simp [JsNum.le]

theorem JsNum.le_total' (a b : JsNum) : JsNum.le a b = true ∨ JsNum.le b a = true := by
  cases a <;> cases b <;> simp [JsNum.le] <;> exact le_total _ _

theorem JsNum.le_trans' (a b c : JsNum) (h1 : JsNum.le a b = true)
    (h2 : JsNum.le b c = true) : JsNum.le a c = true := by
  cases a <;> cases b <;> cases c <;> simp_all [JsNum.le] <;> linarith

theorem oiDescLe_le (a b : NormalizedRecord) :
    oiDescLe a b = JsNum.le (oiKey b) (oiKey a) := by
  unfold oiDescLe
  cases hb : oiKey b <;> cases ha : oiKey a <;>
    simp only [JsNum.sub, JsNum.le] <;> try rfl
  rw [ratSub_eq]
  exact decide_eq_decide.mpr sub_nonpos

/-- C4: `topInstrumentsForCandles` returns at most `topN` records, all of
the requested option type, sorted descending by open interest with a
missing value treated as `0`; ties keep the input's relative order
(stable sort); and re-applying it to its own output with the same type
and any bound at least the output's length returns the output
unchanged. -/
theorem topInstrumentsForCandles_spec (records : List NormalizedRecord)
    (optionType : OptionType) (topN : Nat) :
    (topInstrumentsForCandles records optionType topN).length ≤ topN ∧
    (∀ r ∈ topInstrumentsForCandles records optionType topN,
      r.option_type = optionType) ∧
    List.Pairwise (fun a b => JsNum.le (oiKey b) (oiKey a) = true)
      (topInstrumentsForCandles records optionType topN) ∧
    (∀ a b, oiKey a = oiKey b →
      List.Sublist [a, b] (records.filter (fun r => r.option_type = optionType)) →
      List.Sublist [a, b]
        (List.insertionSort (fun a b => oiDescLe a b = true)
          (records.filter (fun r => r.option_type = optionType)))) ∧
    (∀ m : Nat, (topInstrumentsForCandles records optionType topN).length ≤ m →
      topInstrumentsForCandles (topInstrumentsForCandles records optionType topN)
        optionType m = topInstrumentsForCandles records optionType topN) := by
  letI : IsTotal NormalizedRecord (fun a b => oiDescLe a b = true) :=
    ⟨fun a b => by
      rw [oiDescLe_le, oiDescLe_le]
      exact JsNum.le_total' (oiKey b) (oiKey a)⟩
  letI : IsTrans NormalizedRecord (fun a b => oiDescLe a b = true) :=
    ⟨fun a b c hab hbc => by
      rw [oiDescLe_le] at hab hbc ⊢
      exact JsNum.le_trans' _ _ _ hbc hab⟩
  have hsorted := List.sorted_insertionSort (fun a b => oiDescLe a b = true)
    (records.filter (fun r => r.option_type = optionType))
  have houtsorted : List.Pairwise (fun a b => oiDescLe a b = true)
      (topInstrumentsForCandles records optionType topN) :=
    List.Pairwise.sublist (List.take_sublist _ _) hsorted
  have hmemtype : ∀ r ∈ topInstrumentsForCandles records optionType topN,
      r.option_type = optionType := by
    intro r hr
    have hr1 : r ∈ List.insertionSort (fun a b => oiDescLe a b = true)
        (records.filter (fun r => r.option_type = optionType)) :=
      List.mem_of_mem_take hr
    have hr2 := (List.mem_insertionSort _).mp hr1
    have := List.of_mem_filter hr2
    exact of_decide_eq_true this
  refine ⟨?_, hmemtype, ?_, ?_, ?_⟩
  · exact List.length_take_le _ _
  · exact houtsorted.imp fun h => by rwa [oiDescLe_le] at h
  · intro a b hk hsub
    refine List.pair_sublist_insertionSort ?_ hsub
    rw [oiDescLe_le, ← hk]
    exact JsNum.le_refl' _
  · intro m hm
    unfold topInstrumentsForCandles
    have hfilter : (topInstrumentsForCandles records optionType topN).filter
        (fun r => r.option_type = optionType) =
        topInstrumentsForCandles records optionType topN :=
      List.filter_eq_self.mpr fun a ha => decide_eq_true (hmemtype a ha)
    rw [show ((List.insertionSort (fun a b => oiDescLe a b = true)
        (List.filter (fun r => decide (r.option_type = optionType)) records)).take topN)
        = topInstrumentsForCandles records optionType topN from rfl]
    rw [hfilter, List.Sorted.insertionSort_eq houtsorted,
      List.take_of_length_le hm]

/-- Witness for C4 on a concrete list with two tied call records and a
put record. -/
theorem topInstrumentsForCandles_spec_witness :
    (topInstrumentsForCandles [recCall, recCallTie, recPut] OptionType.call 5).length ≤ 5 ∧
    recCall.option_type = OptionType.call ∧
    List.Pairwise (fun a b => JsNum.le (oiKey b) (oiKey a) = true)
      (topInstrumentsForCandles [recCall, recCallTie, recPut] OptionType.call 5) ∧
    List.Sublist [recCall, recCallTie]
      (List.insertionSort (fun a b => oiDescLe a b = true)
        (List.filter (fun r => r.option_type = OptionType.call)
          [recCall, recCallTie, recPut])) ∧
    topInstrumentsForCandles
      (topInstrumentsForCandles [recCall, recCallTie, recPut] OptionType.call 5)
      OptionType.call 5 =
      topInstrumentsForCandles [recCall, recCallTie, recPut] OptionType.call 5 :=
  ⟨(topInstrumentsForCandles_spec [recCall, recCallTie, recPut] OptionType.call 5).1,
    (topInstrumentsForCandles_spec [recCall, recCallTie, recPut] OptionType.call 5).2.1
      recCall (by decide),
    (topInstrumentsForCandles_spec [recCall, recCallTie, recPut] OptionType.call 5).2.2.1,
    (topInstrumentsForCandles_spec [recCall, recCallTie, recPut] OptionType.call 5).2.2.2.1
      recCall recCallTie (by decide)
      (by rw [show List.filter (fun r => r.option_type = OptionType.call)
            [recCall, recCallTie, recPut] = [recCall, recCallTie] from by decide]),
    (topInstrumentsForCandles_spec [recCall, recCallTie, recPut] OptionType.call 5).2.2.2.2
      5 (by decide)⟩

-- ─── CSV round-trip machinery ─────────────────────────────────────────────────

theorem csvFold_raw (cs : List Char) (h : ∀ c ∈ cs, ¬c = ',' ∧ ¬c = '"' ∧ ¬c = '\n') :
    ∀ (t : List (List String)) (row : List String) (cell0 : List Char),
      List.foldl csvStep ⟨t, row, cell0, .raw⟩ cs = ⟨t, row, cell0 ++ cs, .raw⟩ := by
  induction cs with
  | nil => intro t row cell0; simp
  | cons c rest ih =>
    intro t row cell0
    have hc := h c (List.mem_cons_self _ _)
    rw [List.foldl_cons,
      show csvStep ⟨t, row, cell0, .raw⟩ c = ⟨t, row, cell0 ++ [c], .raw⟩ from by
        simp [csvStep, hc.1, hc.2.1, hc.2.2],
      ih (fun x hx => h x (List.mem_cons_of_mem _ hx)) t row (cell0 ++ [c])]
    simp

theorem csvFold_quoted (cs : List Char) :
    ∀ (t : List (List String)) (row : List String) (cell0 : List Char),
      List.foldl csvStep ⟨t, row, cell0, .quoted⟩ (escBody cs) =
        ⟨t, row, cell0 ++ cs, .quoted⟩ := by
  induction cs with
  | nil => intro t row cell0; simp [escBody]
  | cons c rest ih =>
    intro t row cell0
    by_cases hc : c = '"'
    · subst hc
      rw [show escBody ('"' :: rest) = '"' :: '"' :: escBody rest from by
          simp [escBody],
        List.foldl_cons,
        show csvStep ⟨t, row, cell0, .quoted⟩ '"' = ⟨t, row, cell0, .afterQuote⟩ from by
          simp [csvStep],
        List.foldl_cons,
        show csvStep ⟨t, row, cell0, .afterQuote⟩ '"'
            = ⟨t, row, cell0 ++ ['"'], .quoted⟩ from by simp [csvStep],
        ih t row (cell0 ++ ['"'])]
      simp
    · rw [show escBody (c :: rest) = c :: escBody rest from by simp [escBody, hc],
        List.foldl_cons,
        show csvStep ⟨t, row, cell0, .quoted⟩ c = ⟨t, row, cell0 ++ [c], .quoted⟩ from by
          simp [csvStep, hc],
        ih t row (cell0 ++ [c])]
      simp

theorem csvFold_cell (v : Option String) (t : List (List String)) (row : List String) :
    ∃ m, (m = CsvMode.raw ∨ m = CsvMode.afterQuote) ∧
      List.foldl csvStep ⟨t, row, [], .raw⟩ (csvCell v) = ⟨t, row, (cellVal v).data, m⟩ := by
  cases v with
  | none => exact ⟨.raw, Or.inl rfl, rfl⟩
  | some s =>
    show ∃ m, _ ∧ List.foldl csvStep ⟨t, row, [], .raw⟩ (csvEscape s.data) = _
    unfold csvEscape
    split
    · next hq =>
      refine ⟨.afterQuote, Or.inr rfl, ?_⟩
      rw [List.foldl_append]
      have h1 : List.foldl csvStep ⟨t, row, [], .raw⟩ ('"' :: escBody s.data)
          = ⟨t, row, s.data, .quoted⟩ := by
        rw [List.foldl_cons,
          show csvStep ⟨t, row, [], .raw⟩ '"' = ⟨t, row, [], .quoted⟩ from by
            simp [csvStep],
          csvFold_quoted s.data t row []]
        simp
      rw [h1]
      simp [csvStep, cellVal]
    · next hq =>
      refine ⟨.raw, Or.inl rfl, ?_⟩
      have hmem : ∀ c ∈ s.data, ¬c = ',' ∧ ¬c = '"' ∧ ¬c = '\n' := by
        intro c hcmem
        simp only [Bool.or_eq_true, not_or] at hq
        refine ⟨?_, ?_, ?_⟩ <;> intro he <;> subst he
        · exact hq.1.1 (List.elem_iff.mpr hcmem)
        · exact hq.1.2 (List.elem_iff.mpr hcmem)
        · exact hq.2 (List.elem_iff.mpr hcmem)
      rw [csvFold_raw s.data hmem t row []]
      rfl

theorem csvStep_comma (t : List (List String)) (row : List String) (cell : List Char)
    (m : CsvMode) (hm : m = CsvMode.raw ∨ m = CsvMode.afterQuote) :
    csvStep ⟨t, row, cell, m⟩ ',' = ⟨t, row ++ [String.mk cell], [], .raw⟩ := by
  rcases hm with hm | hm <;> subst hm <;> simp [csvStep]

theorem csvStep_newline (t : List (List String)) (row : List String) (cell : List Char)
    (m : CsvMode) (hm : m = CsvMode.raw ∨ m = CsvMode.afterQuote) :
    csvStep ⟨t, row, cell, m⟩ '\n' = ⟨t ++ [row ++ [String.mk cell]], [], [], .raw⟩ := by
  rcases hm with hm | hm <;> subst hm <;> simp [csvStep]

theorem string_mk_cellVal (v : Option String) : String.mk (cellVal v).data = cellVal v := rfl

theorem csvFold_row (cells : List (Option String)) (hne : cells ≠ []) :
    ∀ (t : List (List String)) (row0 : List String),
      ∃ m, (m = CsvMode.raw ∨ m = CsvMode.afterQuote) ∧
        List.foldl csvStep ⟨t, row0, [], .raw⟩ (csvRowChars cells) =
          ⟨t, row0 ++ cells.dropLast.map cellVal,
            (cellVal (cells.getLast hne)).data, m⟩ := by
  induction cells with
  | nil => exact absurd rfl hne
  | cons v rest ih =>
    intro t row0
    cases rest with
    | nil =>
      obtain ⟨m, hm, heq⟩ := csvFold_cell v t row0
      refine ⟨m, hm, ?_⟩
      rw [show csvRowChars [v] = csvCell v from by simp [csvRowChars, joinSep], heq]
      simp
    | cons v2 rest2 =>
      have hne2 : v2 :: rest2 ≠ [] := by simp
      obtain ⟨m0, hm0, heq0⟩ := csvFold_cell v t row0
      obtain ⟨m, hm, heq⟩ := ih hne2 t (row0 ++ [cellVal v])
      refine ⟨m, hm, ?_⟩
      rw [show csvRowChars (v :: v2 :: rest2)
            = csvCell v ++ (',' :: csvRowChars (v2 :: rest2)) from by
          simp [csvRowChars, joinSep],
        List.foldl_append, heq0, List.foldl_cons,
        csvStep_comma t row0 (cellVal v).data m0 hm0, string_mk_cellVal, heq]
      rw [show (v :: v2 :: rest2).dropLast = v :: (v2 :: rest2).dropLast from rfl,
        show (v :: v2 :: rest2).getLast hne = (v2 :: rest2).getLast hne2 from
          List.getLast_cons hne2]
      simp

theorem map_dropLast_getLast {α β : Type} (f : α → β) (l : List α) (h : l ≠ []) :
    l.dropLast.map f ++ [f (l.getLast h)] = l.map f := by
  conv_rhs => rw [← List.dropLast_append_getLast h]
  simp

theorem csvFold_table (rcells : List (List (Option String))) (hne : rcells ≠ [])
    (hrows : ∀ cs ∈ rcells, cs ≠ []) :
    ∀ t : List (List String),
      ∃ m row cell, (m = CsvMode.raw ∨ m = CsvMode.afterQuote) ∧
        List.foldl csvStep ⟨t, [], [], .raw⟩ (joinSep '\n' (rcells.map csvRowChars)) =
          ⟨t ++ rcells.dropLast.map (fun cs => cs.map cellVal), row, cell, m⟩ ∧
        row ++ [String.mk cell] = (rcells.getLast hne).map cellVal := by
  induction rcells with
  | nil => exact absurd rfl hne
  | cons cs rest ih =>
    intro t
    cases rest with
    | nil =>
      have hcs : cs ≠ [] := hrows cs (List.mem_cons_self _ _)
      obtain ⟨m, hm, heq⟩ := csvFold_row cs hcs t []
      refine ⟨m, cs.dropLast.map cellVal, (cellVal (cs.getLast hcs)).data, hm, ?_, ?_⟩
      · rw [show joinSep '\n' ([cs].map csvRowChars) = csvRowChars cs from by
            simp [joinSep], heq]
        simp
      · rw [string_mk_cellVal]
        exact map_dropLast_getLast cellVal cs hcs
    | cons cs2 rest2 =>
      have hcs : cs ≠ [] := hrows cs (List.mem_cons_self _ _)
      have hne2 : cs2 :: rest2 ≠ [] := by simp
      have hrows2 : ∀ x ∈ cs2 :: rest2, x ≠ [] :=
        fun x hx => hrows x (List.mem_cons_of_mem _ hx)
      obtain ⟨m0, hm0, heq0⟩ := csvFold_row cs hcs t []
      obtain ⟨m, row, cell, hm, heq, hrc⟩ := ih hne2 hrows2 (t ++ [cs.map cellVal])
      refine ⟨m, row, cell, hm, ?_, ?_⟩
      · rw [show joinSep '\n' ((cs :: cs2 :: rest2).map csvRowChars)
              = csvRowChars cs ++ ('\n' :: joinSep '\n' ((cs2 :: rest2).map csvRowChars)) from
            rfl]
        rw [List.foldl_append, heq0, List.foldl_cons, csvStep_newline t _ _ m0 hm0]
        rw [List.nil_append, string_mk_cellVal,
          map_dropLast_getLast cellVal cs hcs, heq]
        rw [show (cs :: cs2 :: rest2).dropLast = cs :: (cs2 :: rest2).dropLast from rfl]
        simp
      · rw [List.getLast_cons hne2]
        exact hrc

-- ─── C8 ───────────────────────────────────────────────────────────────────────

set_option maxRecDepth 8192 in
/-- C8: `recordsToCsv` emits the header row (even for zero records)
followed by one CSV row per record — `N + 1` rows in total — with a
missing ("no value") field serialized as the empty cell and any cell
containing a comma, quote or newline wrapped in doubled-quote escaping,
so that a standard CSV parse recovers the header and, for every record,
every non-missing field exactly and every missing field as the empty
string. -/
theorem recordsToCsv_roundTrip (records : List NormalizedRecord) :
    csvParse (recordsToCsv records) =
      some (csvHeaders :: records.map (fun r => (recordCells r).map cellVal)) ∧
    ∀ rows, csvParse (recordsToCsv records) = some rows →
      rows.length = records.length + 1 := by
  have hhdr : joinSep ',' (csvHeaders.map String.data)
      = csvRowChars (csvHeaders.map some) := by decide
  have hmapeq : ((csvHeaders.map some) :: records.map recordCells).map csvRowChars
      = (joinSep ',' (csvHeaders.map String.data)) ::
        records.map (fun r => csvRowChars (recordCells r)) := by
    rw [List.map_cons, ← hhdr, List.map_map]
    rfl
  have hrows : ∀ cs ∈ (csvHeaders.map some) :: records.map recordCells, cs ≠ [] := by
    intro cs hcs
    rcases List.mem_cons.mp hcs with h | h
    · subst h
      simp [csvHeaders]
    · obtain ⟨r, _, hr⟩ := List.mem_map.mp h
      subst hr
      simp [recordCells]
  have hne : (csvHeaders.map some) :: records.map recordCells ≠ [] := by simp
  obtain ⟨m, row, cell, hm, hfold, hrc⟩ :=
    csvFold_table ((csvHeaders.map some) :: records.map recordCells) hne hrows []
  have hparse : csvParse (recordsToCsv records)
      = some (csvHeaders :: records.map (fun r => (recordCells r).map cellVal)) := by
    unfold csvParse recordsToCsv
    rw [show (String.mk (joinSep '\n'
        ((joinSep ',' (csvHeaders.map String.data)) ::
          records.map (fun r => csvRowChars (recordCells r))))).data
        = joinSep '\n' ((joinSep ',' (csvHeaders.map String.data)) ::
          records.map (fun r => csvRowChars (recordCells r))) from rfl]
    rw [← hmapeq, hfold]
    rcases hm with hm | hm <;> subst hm <;> dsimp only <;> rw [hrc, List.nil_append] <;>
      rw [map_dropLast_getLast (fun cs => cs.map cellVal) _ hne] <;>
      rw [List.map_cons] <;>
      rw [show (csvHeaders.map some).map cellVal = csvHeaders from by decide] <;>
      rw [List.map_map] <;> rfl
  refine ⟨hparse, ?_⟩
  intro rows hrows'
  rw [hparse] at hrows'
  injection hrows' with h'
  rw [← h']
  simp

/-- Witness for C8 at a one-record list: the parse recovers the header
row plus the record's cells, and the row count is `1 + 1`. -/
theorem recordsToCsv_roundTrip_witness :
    csvParse (recordsToCsv [recCall]) =
      some (csvHeaders :: [recCall].map (fun r => (recordCells r).map cellVal)) ∧
    (csvHeaders :: [recCall].map (fun r => (recordCells r).map cellVal)).length =
      [recCall].length + 1 :=
  ⟨(recordsToCsv_roundTrip [recCall]).1,
    (recordsToCsv_roundTrip [recCall]).2 _ (recordsToCsv_roundTrip [recCall]).1⟩

-- ─── API client machinery ─────────────────────────────────────────────────────

theorem isPrefixOf_append_self (l m : List Char) : l.isPrefixOf (l ++ m) = true := by
  induction l with
  | nil => simp [List.isPrefixOf]
  | cons c rest ih => simp [List.isPrefixOf, ih]

theorem hasSubstr_append (pre rest : List Char) : hasSubstr (pre ++ rest) pre = true := by
  unfold hasSubstr
  refine List.any_eq_true.mpr ⟨0, List.mem_range.mpr (Nat.succ_pos _), ?_⟩
  simp [isPrefixOf_append_self]

theorem hasSubstr_mid (pre mid post : List Char) :
    hasSubstr (pre ++ (mid ++ post)) mid = true := by
  unfold hasSubstr
  refine List.any_eq_true.mpr ⟨pre.length, List.mem_range.mpr ?_, ?_⟩
  · simp only [List.length_append]
    omega
  · rw [List.drop_left]
    exact isPrefixOf_append_self mid post

theorem formatHttpError_shape (status : Nat) (path : String) (body : ParsedBody) :
    ∃ tail : String, formatHttpError status path body =
      ("HTTP " ++ toString status ++ " for " ++ path) ++ tail := by
  unfold formatHttpError
  rcases body with _ | ⟨err, msg⟩ | t
  · exact ⟨"", (String.append_empty _).symm⟩
  · rcases err with _ | e
    · exact ⟨"", (String.append_empty _).symm⟩
    · rcases e with _ | b | q | es | xs | fs
      · exact ⟨"", (String.append_empty _).symm⟩
      · exact ⟨"", (String.append_empty _).symm⟩
      · exact ⟨"", (String.append_empty _).symm⟩
      · dsimp only
        split
        · exact ⟨" (" ++ es ++ msgSuffix msg ++ ")", by
            simp [String.append_assoc]⟩
        · exact ⟨"", (String.append_empty _).symm⟩
      · exact ⟨"", (String.append_empty _).symm⟩
      · dsimp only
        rcases jsonLookup fs "code" with _ | c
        · exact ⟨"", (String.append_empty _).symm⟩
        · dsimp only
          split
          · exact ⟨" (" ++ c.display ++ ")", by simp [String.append_assoc]⟩
          · exact ⟨"", (String.append_empty _).symm⟩
  · dsimp only
    split
    · exact ⟨" (" ++ clip220 t ++ ")", by simp [String.append_assoc]⟩
    · exact ⟨"", (String.append_empty _).symm⟩

theorem getAllGo_front (path : String) (front : List HttpResponse)
    (hfront : ∀ resp ∈ front, resp.ok = true ∧ resp.payload.success = true ∧
      (resp.payload.result.getD []).length = PAGE_SIZE ∧
      resp.payload.after.isSome = true) :
    ∀ (rest : List HttpResponse) (acc : List Json),
      getAllGo path (front ++ rest) acc =
        getAllGo path rest
          (acc ++ front.flatMap (fun resp => resp.payload.result.getD [])) := by
  induction front with
  | nil => intro rest acc; simp
  | cons resp front' ih =>
    intro rest acc
    obtain ⟨hok, hsucc, hlen, hafter⟩ := hfront resp (List.mem_cons_self _ _)
    obtain ⟨a, ha⟩ := Option.isSome_iff_exists.mp hafter
    have hcheck : checkResponse path resp = .ok resp.payload := by
      simp [checkResponse, hok, hsucc]
    rw [List.cons_append]
    simp only [getAllGo, hcheck]
    rw [hlen]
    simp only [lt_self_iff_false, if_false, ha]
    rw [ih (fun r hr => hfront r (List.mem_cons_of_mem _ hr)) rest (acc ++ _)]
    simp [List.append_assoc]

-- ─── C2 ───────────────────────────────────────────────────────────────────────

/-- C2: for any sequence of successful full pages followed by a page
shorter than the requested page size, `_getAll` returns exactly the flat
concatenation of the pages in request order and stops at the short page
— even when that page still carries a non-null `after` cursor (the
final page's cursor is left unconstrained). -/
theorem getAll_concatenates_pages (path : String) (front : List HttpResponse)
    (last : HttpResponse)
    (hfront : ∀ resp ∈ front, resp.ok = true ∧ resp.payload.success = true ∧
      (resp.payload.result.getD []).length = PAGE_SIZE ∧
      resp.payload.after.isSome = true)
    (hlast : last.ok = true ∧ last.payload.success = true ∧
      (last.payload.result.getD []).length < PAGE_SIZE) :
    getAll path (front ++ [last]) =
      some (.ok ((front ++ [last]).flatMap
        (fun resp => resp.payload.result.getD []))) := by
  obtain ⟨hok, hsucc, hlen⟩ := hlast
  have hcheck : checkResponse path last = .ok last.payload := by
    simp [checkResponse, hok, hsucc]
  unfold getAll
  rw [getAllGo_front path front hfront [last] []]
  simp only [getAllGo, hcheck]
  rw [if_pos hlen]
  simp [List.flatMap_append, List.append_assoc]

/-- Witness for C2: three pages of sizes 1000, 1000, and 340 — the last
echoing a stale cursor — produce the 2340-record concatenation. -/
theorem getAll_concatenates_pages_witness :
    getAll "/v2/products"
      [fullPage 1000 (some "c1"), fullPage 1000 (some "c2"), fullPage 340 (some "stale")]
      = some (.ok ([fullPage 1000 (some "c1"), fullPage 1000 (some "c2"),
          fullPage 340 (some "stale")].flatMap
          (fun resp => resp.payload.result.getD []))) ∧
    ([fullPage 1000 (some "c1"), fullPage 1000 (some "c2"),
      fullPage 340 (some "stale")].flatMap
      (fun resp => resp.payload.result.getD [])).length = 2340 := by
  constructor
  · exact getAll_concatenates_pages "/v2/products"
      [fullPage 1000 (some "c1"), fullPage 1000 (some "c2")] (fullPage 340 (some "stale"))
      (by
        intro resp h
        simp only [List.mem_cons, List.not_mem_nil, or_false] at h
        rcases h with rfl | rfl <;>
          exact ⟨rfl, rfl, by
            simp only [fullPage, Option.getD_some, List.length_map,
              List.length_range, PAGE_SIZE], rfl⟩)
      ⟨rfl, rfl, by
        simp only [fullPage, Option.getD_some, List.length_map,
          List.length_range, PAGE_SIZE]
        norm_num⟩
  · simp only [List.flatMap_cons, List.flatMap_nil, fullPage, Option.getD_some,
      List.append_nil, List.length_append, List.length_map, List.length_range]

-- ─── C10 ──────────────────────────────────────────────────────────────────────

/-- C10: when a successful page payload has no `result` (or a null one),
`_getAll` treats the page as empty — no error — and, the empty page being
shorter than the page size, terminates and returns the records
accumulated from the earlier pages. -/
theorem getAll_null_result (path : String) (front : List HttpResponse)
    (hfront : ∀ resp ∈ front, resp.ok = true ∧ resp.payload.success = true ∧
      (resp.payload.result.getD []).length = PAGE_SIZE ∧
      resp.payload.after.isSome = true)
    (resp : HttpResponse) (rest : List HttpResponse)
    (h1 : resp.ok = true) (h2 : resp.payload.success = true)
    (h3 : resp.payload.result = none) :
    getAll path (front ++ resp :: rest) =
      some (.ok (front.flatMap (fun r => r.payload.result.getD []))) := by
  have hcheck : checkResponse path resp = .ok resp.payload := by
    simp [checkResponse, h1, h2]
  unfold getAll
  rw [getAllGo_front path front hfront (resp :: rest) []]
  simp only [getAllGo, hcheck, h3]
  simp [PAGE_SIZE]

/-- A success page whose payload carries no `result` field but still a
cursor. -/
def respNullResult : HttpResponse :=
  { ok := true, status := 200, errorBody := .empty,
    payload := { success := true, result := none, after := some "x", error := none } }

/-- Witness for C10: one full page followed by a result-less success page
returns the first page's 1000 records. -/
theorem getAll_null_result_witness :
    getAll "/v2/products" [fullPage 1000 (some "c1"), respNullResult] =
      some (.ok ([fullPage 1000 (some "c1")].flatMap
        (fun r => r.payload.result.getD []))) :=
  getAll_null_result "/v2/products" [fullPage 1000 (some "c1")]
    (by
      intro resp h
      simp only [List.mem_cons, List.not_mem_nil, or_false] at h
      subst h
      exact ⟨rfl, rfl, by
        simp only [fullPage, Option.getD_some, List.length_map,
          List.length_range, PAGE_SIZE], rfl⟩)
    respNullResult [] rfl rfl rfl

-- ─── C9 ───────────────────────────────────────────────────────────────────────

/-- C9: counterexample — the claim that every failed request's error
message carries the HTTP status fails for the application-failure
branch: an HTTP-200 response whose payload has `success:false` throws
`Delta API error for path: ...`, a message that does not mention the
status 200 at all. -/
theorem client_error_status_counterexample :
    ¬ (∀ (path : String) (resp : HttpResponse),
        resp.ok = true → resp.payload.success = false →
        ∃ e, checkResponse path resp = .error e ∧
          hasSubstr e.data (toString resp.status).data = true) := by
  intro h
  obtain ⟨e, he, hsub⟩ := h "/v2/tickers" respC9 rfl rfl
  rw [show checkResponse "/v2/tickers" respC9 =
      .error "Delta API error for /v2/tickers: \"auth_failed\"" from rfl] at he
  injection he with he
  subst he
  exact absurd hsub (by decide)

/-- C9 (amended): every failed request raises exactly one error.  A
transport failure (non-ok HTTP status) raises the `formatHttpError`
message, which carries the HTTP status and the request path (and whose
raw-body excerpt is capped at 220 characters); an HTTP-success,
`success:false` payload raises the `Delta API error` message, which
carries the request path (but not the status); and a failing page makes
`_getAll` surface exactly that error, aborting the pagination loop
instead of returning the earlier pages as a partial result. -/
theorem client_error_spec (path : String) (resp : HttpResponse) :
    (resp.ok = false →
      checkResponse path resp =
        .error (formatHttpError resp.status path resp.errorBody) ∧
      hasSubstr (formatHttpError resp.status path resp.errorBody).data
        (toString resp.status).data = true ∧
      hasSubstr (formatHttpError resp.status path resp.errorBody).data
        path.data = true) ∧
    (resp.ok = true → resp.payload.success = false →
      checkResponse path resp = .error (appErrorMsg path resp.payload) ∧
      hasSubstr (appErrorMsg path resp.payload).data path.data = true) ∧
    (∀ t : String, (clip220 t).data.length ≤ 220) ∧
    (∀ (front rest : List HttpResponse) (e : String),
      (∀ r ∈ front, r.ok = true ∧ r.payload.success = true ∧
        (r.payload.result.getD []).length = PAGE_SIZE ∧
        r.payload.after.isSome = true) →
      checkResponse path resp = .error e →
      getAll path (front ++ resp :: rest) = some (.error e)) := by
  refine ⟨?_, ?_, ?_, ?_⟩
  · intro hok
    have hc : checkResponse path resp =
        .error (formatHttpError resp.status path resp.errorBody) := by
      simp [checkResponse, hok]
    obtain ⟨tail, htail⟩ := formatHttpError_shape resp.status path resp.errorBody
    refine ⟨hc, ?_, ?_⟩
    · rw [htail]
      have hdata : (("HTTP " ++ toString resp.status ++ " for " ++ path) ++ tail).data =
          "HTTP ".data ++ ((toString resp.status).data ++
            (" for ".data ++ (path.data ++ tail.data))) := by
        simp [String.data_append]
      rw [hdata]
      exact hasSubstr_mid "HTTP ".data (toString resp.status).data _
    · rw [htail]
      have hdata : (("HTTP " ++ toString resp.status ++ " for " ++ path) ++ tail).data =
          ("HTTP ".data ++ ((toString resp.status).data ++ " for ".data)) ++
            (path.data ++ tail.data) := by
        simp [String.data_append]
      rw [hdata]
      exact hasSubstr_mid _ path.data tail.data
  · intro hok hsucc
    have hc : checkResponse path resp = .error (appErrorMsg path resp.payload) := by
      simp [checkResponse, hok, hsucc]
    refine ⟨hc, ?_⟩
    have hdata : (appErrorMsg path resp.payload).data =
        "Delta API error for ".data ++ (path.data ++
          (": " ++ Json.stringify (resp.payload.error.getD (payloadJson resp.payload))).data) := by
      simp [appErrorMsg, String.data_append]
    rw [hdata]
    exact hasSubstr_mid _ path.data _
  · intro t
    simp [clip220, List.length_take]
  · intro front rest e hfront herr
    unfold getAll
    rw [getAllGo_front path front hfront (resp :: rest) []]
    simp only [getAllGo, herr]

/-- Witness for C9: an HTTP-500 response with a raw body gives the
`HTTP 500 for /v2/tickers (...)` message — status and path included —
and a full page followed by that failure aborts the loop with exactly
that error. -/
theorem client_error_spec_witness :
    checkResponse "/v2/tickers" resp500 =
      .error (formatHttpError resp500.status "/v2/tickers" resp500.errorBody) ∧
    hasSubstr (formatHttpError resp500.status "/v2/tickers" resp500.errorBody).data
      (toString resp500.status).data = true ∧
    hasSubstr (formatHttpError resp500.status "/v2/tickers" resp500.errorBody).data
      "/v2/tickers".data = true ∧
    getAll "/v2/tickers" [fullPage 1000 (some "c1"), resp500] =
      some (.error (formatHttpError resp500.status "/v2/tickers" resp500.errorBody)) := by
  obtain ⟨h1, -, -, h4⟩ := client_error_spec "/v2/tickers" resp500
  obtain ⟨hc, hs, hp⟩ := h1 rfl
  refine ⟨hc, hs, hp, ?_⟩
  refine h4 [fullPage 1000 (some "c1")] [] _ ?_ rfl
  intro r hr
  simp only [List.mem_cons, List.not_mem_nil, or_false] at hr
  subst hr
  exact ⟨rfl, rfl, by
    simp only [fullPage, Option.getD_some, List.length_map, List.length_range,
      PAGE_SIZE], rfl⟩
